import Mathlib

/-!
Verification of the CP-SAT timetable solver core (`server/solver_cpsat.py`,
function `solve_cp_sat`).

The module is embedded shallowly:

* the input catalog (teachers, classrooms, subjects, fixed assignments,
  school hours, preferences) becomes plain Lean structures;
* the decision variables the builder creates (`y1`, `y2`, `y3` block-start
  variables and `x` slot-occupancy variables, each a Python dict keyed by
  `(classroomId, subjectId, teacherId, day, hour)`) become computable lists
  of keys, generated by the same loops in the same order; Python dict
  insertion keeps the first position and overwrites the value on a repeated
  key, so the key *set* after the loops is the deduplicated generated list;
* a CP-SAT solution becomes a valuation of every created variable
  (`Solution`), and each `model.Add(...)` family becomes one predicate on
  that valuation; `Satisfies` is their conjunction.  A solution returned by
  the CP-SAT backend with status OPTIMAL or FEASIBLE satisfies every posted
  constraint, which is the interface assumption to the external solver;
* the post-solve extraction (building the per-classroom grid, counting
  placements, assembling the notes) is translated as an executable fold
  (`solve_cp_sat` below).

Machine integers do not overflow here (Python ints are unbounded), so
counts live in `Nat` / `Int` directly.
-/

namespace TimetableCpSat

/-- Classroom levels: the source compares the `level` string against the two
literals `'Ortaokul'` and `'Lise'` (middle school / high school). -/
inductive Level where
  | Ortaokul
  | Lise
deriving DecidableEq, Repr

/-- A teacher record, with the fields `solve_cp_sat` reads: `id`, `branches`,
`availability` (5 rows of booleans), `canTeachMiddleSchool`,
`canTeachHighSchool`. -/
structure Teacher where
  id : String
  branches : List String
  availability : List (List Bool)
  canTeachMiddleSchool : Bool
  canTeachHighSchool : Bool
deriving DecidableEq, Repr

/-- A classroom record; the solver reads only `id` and `level`. -/
structure Classroom where
  id : String
  level : Level
deriving DecidableEq, Repr

/-- A subject record with the fields the solver reads.  `maxConsec = none`
models both an absent value and one that fails `int(...)` conversion (the
source catches the exception and falls back to `None`). -/
structure Subject where
  id : String
  name : String
  weeklyHours : Int
  blockHours : Int
  tripleBlockHours : Int
  maxConsec : Option Int
  locationId : Option String
  assignedClassIds : List String
  pinnedTeacherByClassroom : List (String × String)
deriving DecidableEq, Repr

/-- A fixed assignment `(classroomId, subjectId, dayIndex, hourIndex)`. -/
structure FixedAssignment where
  classroomId : String
  subjectId : String
  dayIndex : Nat
  hourIndex : Nat
deriving DecidableEq, Repr

/-- `school_hours`: per-day teaching-hour counts for the two levels. -/
structure SchoolHours where
  ortaokul : List Nat
  lise : List Nat
deriving DecidableEq, Repr

/-- The preferences dictionary.  Every field is optional; `none` models both
an absent key and a value whose `int(...)` conversion raises (wherever the
source wraps the conversion in `try`/`except`). -/
structure Preferences where
  allowSameDaySplit : Bool := false
  maxTeacherGapHours : Option Int := none
  teacherGapWeight : Option Int := none
  teacherDailyMaxHours : Option Int := none
  edgeWeight : Option Int := none
  nogapWeight : Option Int := none
deriving DecidableEq, Repr

/-- The whole argument list of `solve_cp_sat` that influences the model:
`data` (teachers/classrooms/subjects/fixedAssignments), `school_hours`,
`default_max_consec`, `preferences`, `stop_at_first`. -/
structure Input where
  teachers : List Teacher
  classrooms : List Classroom
  subjects : List Subject
  fixed : List FixedAssignment
  schoolHours : SchoolHours
  defaultMaxConsec : Option Int := none
  prefs : Preferences := {}
  stopAtFirst : Bool := false
deriving DecidableEq, Repr

/-- Key of the variable dictionaries: `(cid, sid, tid, d, h)`. -/
structure Key where
  cid : String
  sid : String
  tid : String
  d : Nat
  h : Nat
deriving DecidableEq, Repr

/-- `teacher_by_id = {t['id']: t for t in teachers}`: a Python dict
comprehension keeps the last record for a repeated id, so lookup is
`find?` on the reversed list. -/
def teacher_by_id (inp : Input) (tid : String) : Option Teacher :=
  inp.teachers.reverse.find? (fun t => t.id == tid)

/-- `classroom_by_id = {c['id']: c for c in classrooms}`. -/
def classroom_by_id (inp : Input) (cid : String) : Option Classroom :=
  inp.classrooms.reverse.find? (fun c => c.id == cid)

/-- `subject_by_id = {s['id']: s for s in subjects}`. -/
def subject_by_id (inp : Input) (sid : String) : Option Subject :=
  inp.subjects.reverse.find? (fun s => s.id == sid)

/-- `school_hours['Ortaokul'][d]` resp. `school_hours['Lise'][d]`: the
allowed number of hours on day `d` for a level.  The spec requires the two
lists to have five entries; out-of-range reads default to 0. -/
def allowedLen (sh : SchoolHours) (lvl : Level) (d : Nat) : Nat :=
  match lvl with
  | Level.Ortaokul => sh.ortaokul.getD d 0
  | Level.Lise => sh.lise.getD d 0

/-- `max(school_hours['Ortaokul'][d], school_hours['Lise'][d])`, the
iteration bound used for the teacher-slot loops. -/
def maxAllowed (sh : SchoolHours) (d : Nat) : Nat :=
  max (sh.ortaokul.getD d 0) (sh.lise.getD d 0)

/-- `teacher['availability'][d][h]` looked up through `teacher_by_id`,
exactly as the variable-creation loop reads it.  The spec stipulates a full
5×H matrix; short rows default to `false`. -/
def tAvail (inp : Input) (tid : String) (d h : Nat) : Bool :=
  match teacher_by_id inp tid with
  | some t => (t.availability.getD d []).getD h false
  | none => false

/-- `pinned_map.get(c['id'])` on the subject's `pinnedTeacherByClassroom`
dict (last entry wins for a repeated classroom id). -/
def pinnedLookup (s : Subject) (cid : String) : Option String :=
  (s.pinnedTeacherByClassroom.reverse.find? (fun pr => pr.1 == cid)).map (fun pr => pr.2)

/-- `if pinned and pinned in teacher_by_id:` — the pin that short-circuits
eligibility: present, truthy (non-empty string) and resolvable. -/
def pinnedOk (inp : Input) (c : Classroom) (s : Subject) : Option String :=
  match pinnedLookup s c.id with
  | some p => if p ≠ "" ∧ (teacher_by_id inp p).isSome then some p else none
  | none => none

/-- `eligible_teachers(c, s)`: a truthy pin that resolves in `teacher_by_id`
wins; otherwise filter the teacher list by level capability and branch. -/
def eligible_teachers (inp : Input) (c : Classroom) (s : Subject) : List String :=
  match pinnedOk inp c s with
  | some p => [p]
  | none =>
    (inp.teachers.filter (fun t =>
      (!(c.level == Level.Ortaokul) || t.canTeachMiddleSchool)
      && (!(c.level == Level.Lise) || t.canTeachHighSchool)
      && (t.branches.isEmpty || t.branches.contains s.name))).map (fun t => t.id)

/-- Insert a key if absent: Python dict keys keep their first insertion
position and are never duplicated. -/
def insKey (ks : List Key) (k : Key) : List Key :=
  if k ∈ ks then ks else ks ++ [k]

/-- Deduplicate a generated key list, keeping first positions: the key set
of a Python dict filled by the generation loops. -/
def dedupK (l : List Key) : List Key :=
  l.foldl insKey []

/-- Keys of the `y1` single-start variables generated for one `(s, cid)`
iteration of the subject loop: eligible teachers × days × in-range hours
where the teacher is available.  (`class_day_ok(c, d, h)` is `h <
allowed[d]`, which already bounds the `h` loop, so it never skips.) -/
def y1Block (inp : Input) (s : Subject) (cid : String) : List Key :=
  match classroom_by_id inp cid with
  | none => []
  | some c =>
    let tids := eligible_teachers inp c s
    if tids = [] then []
    else
      tids.flatMap (fun tid =>
        (List.range 5).flatMap (fun d =>
          ((List.range (allowedLen inp.schoolHours c.level d)).filter (fun h =>
            tAvail inp tid d h)).map (fun h =>
            ⟨cid, s.id, tid, d, h⟩)))

/-- Keys of the `y2` two-hour block starts: additionally `h+1` must be in
range and the teacher available at both covered hours. -/
def y2Block (inp : Input) (s : Subject) (cid : String) : List Key :=
  match classroom_by_id inp cid with
  | none => []
  | some c =>
    let tids := eligible_teachers inp c s
    if tids = [] then []
    else
      tids.flatMap (fun tid =>
        (List.range 5).flatMap (fun d =>
          ((List.range (allowedLen inp.schoolHours c.level d)).filter (fun h =>
            decide (h + 1 < allowedLen inp.schoolHours c.level d)
            && tAvail inp tid d h && tAvail inp tid d (h + 1))).map (fun h =>
            ⟨cid, s.id, tid, d, h⟩)))

/-- Keys of the `y3` three-hour block starts. -/
def y3Block (inp : Input) (s : Subject) (cid : String) : List Key :=
  match classroom_by_id inp cid with
  | none => []
  | some c =>
    let tids := eligible_teachers inp c s
    if tids = [] then []
    else
      tids.flatMap (fun tid =>
        (List.range 5).flatMap (fun d =>
          ((List.range (allowedLen inp.schoolHours c.level d)).filter (fun h =>
            decide (h + 2 < allowedLen inp.schoolHours c.level d)
            && tAvail inp tid d h && tAvail inp tid d (h + 1)
            && tAvail inp tid d (h + 2))).map (fun h =>
            ⟨cid, s.id, tid, d, h⟩)))

/-- Keys of the `x` occupancy variables generated for one `(s, cid)`
iteration.  In the source the `for tid in t_ids` creation loop for `x` is
nested inside the outer `for tid in t_ids` loop, so the whole block is
generated once per eligible teacher; repeated keys merely overwrite the
dict entry, which `dedupK` accounts for. -/
def xBlock (inp : Input) (s : Subject) (cid : String) : List Key :=
  match classroom_by_id inp cid with
  | none => []
  | some c =>
    let tids := eligible_teachers inp c s
    if tids = [] then []
    else
      tids.flatMap (fun _ =>
        tids.flatMap (fun tid =>
          (List.range 5).flatMap (fun d =>
            (List.range (allowedLen inp.schoolHours c.level d)).map (fun h =>
              ⟨cid, s.id, tid, d, h⟩))))

/-- The key set of the `y1` dict after the whole variable-creation loop. -/
def y1Keys (inp : Input) : List Key :=
  dedupK (inp.subjects.flatMap (fun s =>
    s.assignedClassIds.flatMap (fun cid => y1Block inp s cid)))

/-- The key set of the `y2` dict. -/
def y2Keys (inp : Input) : List Key :=
  dedupK (inp.subjects.flatMap (fun s =>
    s.assignedClassIds.flatMap (fun cid => y2Block inp s cid)))

/-- The key set of the `y3` dict. -/
def y3Keys (inp : Input) : List Key :=
  dedupK (inp.subjects.flatMap (fun s =>
    s.assignedClassIds.flatMap (fun cid => y3Block inp s cid)))

/-- The key set of the `x` dict, in insertion order. -/
def xKeys (inp : Input) : List Key :=
  dedupK (inp.subjects.flatMap (fun s =>
    s.assignedClassIds.flatMap (fun cid => xBlock inp s cid)))

/-- The notes accumulated by the variable-creation loop: one entry per
`(s, cid)` pair whose eligible-teacher list is empty.  The literal emitted
by the source is the Turkish
`f"Atlandı: {s['name']} / {cid} (uygun öğretmen yok)"`. -/
def skipNote (s : Subject) (cid : String) : String :=
  "Atlandı: " ++ s.name ++ " / " ++ cid ++ " (uygun öğretmen yok)"

/-- The notes one `(s, cid)` iteration emits: the skip note when the
classroom resolves but no teacher is eligible. -/
def skipBlock (inp : Input) (s : Subject) (cid : String) : List String :=
  match classroom_by_id inp cid with
  | none => []
  | some c =>
    if eligible_teachers inp c s = [] then [skipNote s cid] else []

/-- All skip notes, in emission order. -/
def skipNotes (inp : Input) : List String :=
  inp.subjects.flatMap (fun s =>
    s.assignedClassIds.flatMap (fun cid => skipBlock inp s cid))

/-- `True` on `none`, `P a` on `some a`: the shape of the source's
`if not c: continue` guards, kept decidable. -/
def onSome {α : Type} (o : Option α) (P : α → Prop) : Prop :=
  match o with
  | none => True
  | some a => P a

instance {α : Type} (o : Option α) (P : α → Prop) [∀ a, Decidable (P a)] :
    Decidable (onSome o P) :=
  match o with
  | none => Decidable.isTrue trivial
  | some a => inferInstanceAs (Decidable (P a))

/-- Booleans as 0/1, the value a CP-SAT boolean contributes to a linear sum. -/
def b2n (b : Bool) : Nat :=
  if b then 1 else 0

/-- `sum(vars)` over a list of dict keys under a valuation. -/
def bsum (l : List Key) (f : Key → Bool) : Nat :=
  (l.map (fun k => b2n (f k))).sum

/-- Filter `cc == cid and ss == sid` used by the per-(class,subject) sums. -/
def keyCS (cid sid : String) (k : Key) : Bool :=
  k.cid == cid && k.sid == sid

/-- Filter `cc == cid and dd == d and hh == h` (one lesson per class slot). -/
def keySlot (cid : String) (d h : Nat) (k : Key) : Bool :=
  k.cid == cid && k.d == d && k.h == h

/-- Filter `tt == tid and dd == d and hh == h` (teacher no-overlap). -/
def keyT (tid : String) (d h : Nat) (k : Key) : Bool :=
  k.tid == tid && k.d == d && k.h == h

/-- Filter `tt == tid and dd == d` (teacher daily cap). -/
def keyTD (tid : String) (d : Nat) (k : Key) : Bool :=
  k.tid == tid && k.d == d

/-- Filter `cc == cid and ss == sid and dd == d and hh == h` (fixed pins,
subject-occupancy OR links). -/
def keyCSDH (cid sid : String) (d h : Nat) (k : Key) : Bool :=
  k.cid == cid && k.sid == sid && k.d == d && k.h == h

/-- Filter `cc == cid and ss == sid and dd == d` (max-consecutive windows). -/
def keyCSD (cid sid : String) (d : Nat) (k : Key) : Bool :=
  k.cid == cid && k.sid == sid && k.d == d

/-- `int(max(0, int(s.get('blockHours', 0)))) // 2`: the number of 2-hour
blocks, by truncating division (`Int.toNat` is `max 0` composed with the
cast). -/
def block2Of (s : Subject) : Nat :=
  s.blockHours.toNat / 2

/-- `int(max(0, int(s.get('tripleBlockHours', 0) or 0))) // 3`. -/
def block3Of (s : Subject) : Nat :=
  s.tripleBlockHours.toNat / 3

/-- Effective max-consecutive before clamping: the subject's own value or
the global default. -/
def effMaxConsecRaw (inp : Input) (s : Subject) : Option Int :=
  match s.maxConsec with
  | some v => some v
  | none => inp.defaultMaxConsec

/-- `if eff_max_consec is not None and wh > 0: eff = max(1, min(wh, eff))`. -/
def effMaxConsec (inp : Input) (s : Subject) : Option Int :=
  match effMaxConsecRaw inp s with
  | none => none
  | some v => if 0 < s.weeklyHours then some (max 1 (min s.weeklyHours v)) else some v

/-- Key at hour `h + j` (same classroom, subject, teacher, day). -/
def shiftKey (j : Nat) (k : Key) : Key :=
  { k with h := k.h + j }

/-- Key at hour `h - j`: the `y2.get((..., h-1))` / `y3.get((..., h-2))`
lookups of the coverage-link loop (guarded by `j ≤ h`, since a negative
index is simply absent from a Python dict). -/
def unshiftKey (j : Nat) (k : Key) : Key :=
  { k with h := k.h - j }

/-- A CP-SAT valuation of every variable the builder creates, keyed the way
the source keys its dicts (`socc` by `(cid, sid, d, h)`, the teacher-side
auxiliaries by `(tid, d, h)` or `(tid, d)`). -/
structure Solution where
  x : Key → Bool
  y1 : Key → Bool
  y2 : Key → Bool
  y3 : Key → Bool
  socc : String → String → Nat → Nat → Bool
  o : String → Nat → Nat → Bool
  gap : String → Nat → Nat → Bool
  heavy : String → Nat → Bool
  gapPresent : String → Nat → Bool
  noGapHeavy : String → Nat → Bool

/-- The `cover_terms` sum of the per-slot link constraint
`x == y1 + y2[h] + y2[h-1] + y3[h] + y3[h-1] + y3[h-2]` (absent dict keys
contribute nothing). -/
def coverSum (inp : Input) (σ : Solution) (k : Key) : Nat :=
  (if k ∈ y1Keys inp then b2n (σ.y1 k) else 0)
  + (if k ∈ y2Keys inp then b2n (σ.y2 k) else 0)
  + (if 1 ≤ k.h ∧ unshiftKey 1 k ∈ y2Keys inp then b2n (σ.y2 (unshiftKey 1 k)) else 0)
  + (if k ∈ y3Keys inp then b2n (σ.y3 k) else 0)
  + (if 1 ≤ k.h ∧ unshiftKey 1 k ∈ y3Keys inp then b2n (σ.y3 (unshiftKey 1 k)) else 0)
  + (if 2 ≤ k.h ∧ unshiftKey 2 k ∈ y3Keys inp then b2n (σ.y3 (unshiftKey 2 k)) else 0)

/-- `cover_terms` is non-empty for this `x` key. -/
def hasCover (inp : Input) (k : Key) : Prop :=
  k ∈ y1Keys inp ∨ k ∈ y2Keys inp ∨ (1 ≤ k.h ∧ unshiftKey 1 k ∈ y2Keys inp)
  ∨ k ∈ y3Keys inp ∨ (1 ≤ k.h ∧ unshiftKey 1 k ∈ y3Keys inp)
  ∨ (2 ≤ k.h ∧ unshiftKey 2 k ∈ y3Keys inp)

instance (inp : Input) (k : Key) : Decidable (hasCover inp k) := by
  unfold hasCover
  infer_instance

/-- Constraint family B, posted inside the subject loop: for each `(s, cid)`
with a known classroom and a non-empty eligible list, if `wh > 0` and any
block-start variable exists, the covered hours equal `wh` and the 2- and
3-block counts are exact.  (The source writes `Σ y2 = block2` when
`block2 > 0` and `Σ y2 = 0` otherwise, which is the single equation
`Σ y2 = block2`.)  The dict filters are evaluated on the final key sets;
they agree with the source's point-in-time filters whenever subject ids are
distinct, since later loop iterations only add keys of other subjects. -/
def WeeklyHoursCons (inp : Input) (σ : Solution) : Prop :=
  ∀ s ∈ inp.subjects, ∀ cid ∈ s.assignedClassIds,
    onSome (classroom_by_id inp cid) (fun c =>
      eligible_teachers inp c s ≠ [] →
      0 < s.weeklyHours →
      ((y1Keys inp).filter (keyCS cid s.id) ≠ []
        ∨ (y2Keys inp).filter (keyCS cid s.id) ≠ []
        ∨ (y3Keys inp).filter (keyCS cid s.id) ≠ []) →
      ((bsum ((y1Keys inp).filter (keyCS cid s.id)) σ.y1 : Int)
          + 2 * bsum ((y2Keys inp).filter (keyCS cid s.id)) σ.y2
          + 3 * bsum ((y3Keys inp).filter (keyCS cid s.id)) σ.y3 = s.weeklyHours
        ∧ bsum ((y2Keys inp).filter (keyCS cid s.id)) σ.y2 = block2Of s
        ∧ bsum ((y3Keys inp).filter (keyCS cid s.id)) σ.y3 = block3Of s))

/-- Constraint family C: sliding-window max-consecutive bounds,
`sum(window_vars) <= eff` for every window `[start, start+eff]` with
`start < allowed_len - eff`. -/
def MaxConsecCons (inp : Input) (σ : Solution) : Prop :=
  ∀ s ∈ inp.subjects, ∀ cid ∈ s.assignedClassIds,
    onSome (classroom_by_id inp cid) (fun c =>
      eligible_teachers inp c s ≠ [] →
      onSome (effMaxConsec inp s) (fun eff =>
        0 < eff →
        ∀ d < 5, ∀ start < ((allowedLen inp.schoolHours c.level d : Int) - eff).toNat,
          (xKeys inp).filter (fun k =>
              keyCSD cid s.id d k && decide (start ≤ k.h)
              && decide ((k.h : Int) ≤ start + eff)) ≠ [] →
          (bsum ((xKeys inp).filter (fun k =>
              keyCSD cid s.id d k && decide (start ≤ k.h)
              && decide ((k.h : Int) ≤ start + eff))) σ.x : Int) ≤ eff))

/-- Constraint family D, posted when `allowSameDaySplit` is false: the
subject-occupancy booleans `socc` are OR-linked to the `x` variables of the
slot (`b >= v` for each, `Σ v >= b`), and the 1,0,1 pattern is forbidden
(`socc[h-1] + socc[h+1] - socc[h] <= 1`, posted for `1 ≤ h ≤ al - 2`
whenever the day has at least 3 slots). -/
def ContiguityCons (inp : Input) (σ : Solution) : Prop :=
  inp.prefs.allowSameDaySplit = false →
  ∀ s ∈ inp.subjects, ∀ cid ∈ s.assignedClassIds,
    onSome (classroom_by_id inp cid) (fun c =>
      eligible_teachers inp c s ≠ [] →
      ∀ d < 5,
        (∀ h < allowedLen inp.schoolHours c.level d,
          ((∀ k ∈ (xKeys inp).filter (keyCSDH cid s.id d h),
              σ.x k = true → σ.socc cid s.id d h = true)
            ∧ b2n (σ.socc cid s.id d h)
                ≤ bsum ((xKeys inp).filter (keyCSDH cid s.id d h)) σ.x)
          ∧ ((xKeys inp).filter (keyCSDH cid s.id d h) = [] →
              σ.socc cid s.id d h = false))
        ∧ (∀ h < allowedLen inp.schoolHours c.level d,
            1 ≤ h → h + 1 < allowedLen inp.schoolHours c.level d →
            (b2n (σ.socc cid s.id d (h - 1)) : Int)
              + b2n (σ.socc cid s.id d (h + 1))
              - b2n (σ.socc cid s.id d h) ≤ 1))

/-- Constraint family A: each occupancy variable equals the sum of the
block starts covering its slot; with no covering start it is forced to 0. -/
def LinkCons (inp : Input) (σ : Solution) : Prop :=
  ∀ k ∈ xKeys inp,
    (hasCover inp k → b2n (σ.x k) = coverSum inp σ k)
    ∧ (¬hasCover inp k → σ.x k = false)

/-- Constraint family E: at most one lesson per classroom slot, posted when
the slot has more than one candidate variable. -/
def ClassSlotCons (inp : Input) (σ : Solution) : Prop :=
  ∀ c ∈ inp.classrooms, ∀ d < 5, ∀ h < allowedLen inp.schoolHours c.level d,
    1 < ((xKeys inp).filter (keySlot c.id d h)).length →
    bsum ((xKeys inp).filter (keySlot c.id d h)) σ.x ≤ 1

/-- Constraint family F: teacher no-overlap across classes per slot, posted
for `h < max(allowed_Ortaokul, allowed_Lise)` when more than one variable
names the teacher there. -/
def TeacherSlotCons (inp : Input) (σ : Solution) : Prop :=
  ∀ t ∈ inp.teachers, ∀ d < 5, ∀ h < maxAllowed inp.schoolHours d,
    1 < ((xKeys inp).filter (keyT t.id d h)).length →
    bsum ((xKeys inp).filter (keyT t.id d h)) σ.x ≤ 1

/-- `teacher_daily_max`: kept only when the preference parses and is
non-negative. -/
def teacherDailyMaxVal (p : Preferences) : Option Int :=
  match p.teacherDailyMaxHours with
  | none => none
  | some v => if 0 ≤ v then some v else none

/-- Constraint family G: optional daily-hours cap per teacher and day. -/
def DailyCapCons (inp : Input) (σ : Solution) : Prop :=
  onSome (teacherDailyMaxVal inp.prefs) (fun tdm =>
    ∀ t ∈ inp.teachers, ∀ d < 5,
      (xKeys inp).filter (keyTD t.id d) ≠ [] →
      (bsum ((xKeys inp).filter (keyTD t.id d)) σ.x : Int) ≤ tdm)

/-- Constraint family H: each fixed assignment whose tuple has at least one
occupancy variable must be covered by exactly one teacher; with no
variables the source posts nothing. -/
def FixedCons (inp : Input) (σ : Solution) : Prop :=
  ∀ fa ∈ inp.fixed,
    (xKeys inp).filter
        (keyCSDH fa.classroomId fa.subjectId fa.dayIndex fa.hourIndex) ≠ [] →
    bsum ((xKeys inp).filter
        (keyCSDH fa.classroomId fa.subjectId fa.dayIndex fa.hourIndex)) σ.x = 1

/-- Teacher-occupancy booleans `o[t,d,h]`: OR-linked to the `x` variables
naming the teacher at the slot, or forced to 0 when there are none. -/
def OccCons (inp : Input) (σ : Solution) : Prop :=
  ∀ t ∈ inp.teachers, ∀ d < 5, ∀ h < maxAllowed inp.schoolHours d,
    ((∀ k ∈ (xKeys inp).filter (keyT t.id d h),
        σ.x k = true → σ.o t.id d h = true)
      ∧ b2n (σ.o t.id d h) ≤ bsum ((xKeys inp).filter (keyT t.id d h)) σ.x)
    ∧ ((xKeys inp).filter (keyT t.id d h) = [] → σ.o t.id d h = false)

/-- `occ_count` of a teacher-day: the sum of the occupancy booleans over
the day's iteration range. -/
def occCountAt (inp : Input) (σ : Solution) (tid : String) (d : Nat) : Nat :=
  ((List.range (maxAllowed inp.schoolHours d)).map (fun h => b2n (σ.o tid d h))).sum

/-- `heavy` reification: `occ_count >= 6` enforced when `heavy`,
`occ_count <= 5` enforced when not. -/
def HeavyCons (inp : Input) (σ : Solution) : Prop :=
  ∀ t ∈ inp.teachers, ∀ d < 5,
    (σ.heavy t.id d = true → 6 ≤ occCountAt inp σ t.id d)
    ∧ (σ.heavy t.id d = false → occCountAt inp σ t.id d ≤ 5)

/-- The four linear constraints that define one gap indicator `g` from the
occupancy pattern `(a, m, b)` at hours `h-1, h, h+1`. -/
def gapCons (g a m b : Bool) : Prop :=
  (b2n g : Int) ≤ b2n a
  ∧ (b2n g : Int) ≤ 1 - b2n m
  ∧ (b2n g : Int) ≤ b2n b
  ∧ (b2n a : Int) + b2n b + (1 - b2n m) - 2 ≤ b2n g

/-- The hours for which a gap indicator is created on a day of length `al`:
`range(1, al - 1)` (the source's extra `h + 1 >= allowed_len` test never
fires). -/
def gapHours (al : Nat) : List Nat :=
  (List.range al).filter (fun h => decide (1 ≤ h) && decide (h + 1 < al))

/-- The per-(teacher, day) sum of gap indicators. -/
def gapSumAt (inp : Input) (σ : Solution) (tid : String) (d : Nat) : Nat :=
  ((gapHours (maxAllowed inp.schoolHours d)).map (fun h => b2n (σ.gap tid d h))).sum

/-- Gap-indicator definitions for every interior hour of every teacher-day. -/
def GapDefCons (inp : Input) (σ : Solution) : Prop :=
  ∀ t ∈ inp.teachers, ∀ d < 5, ∀ h < maxAllowed inp.schoolHours d,
    1 ≤ h → h + 1 < maxAllowed inp.schoolHours d →
    gapCons (σ.gap t.id d h) (σ.o t.id d (h - 1)) (σ.o t.id d h) (σ.o t.id d (h + 1))

/-- `max_teacher_gap_hours`: kept only when the preference parses and is
non-negative. -/
def maxTeacherGapVal (p : Preferences) : Option Int :=
  match p.maxTeacherGapHours with
  | none => none
  | some v => if 0 ≤ v then some v else none

/-- Optional hard cap on the per-(teacher, day) gap count, posted when the
day has gap candidates. -/
def GapCapCons (inp : Input) (σ : Solution) : Prop :=
  onSome (maxTeacherGapVal inp.prefs) (fun g =>
    ∀ t ∈ inp.teachers, ∀ d < 5,
      gapHours (maxAllowed inp.schoolHours d) ≠ [] →
      (gapSumAt inp σ t.id d : Int) ≤ g)

/-- `gap_present`: OR of the day's gap indicators (0 when there are none). -/
def GapPresentCons (inp : Input) (σ : Solution) : Prop :=
  ∀ t ∈ inp.teachers, ∀ d < 5,
    ((∀ h ∈ gapHours (maxAllowed inp.schoolHours d),
        σ.gap t.id d h = true → σ.gapPresent t.id d = true)
      ∧ b2n (σ.gapPresent t.id d) ≤ gapSumAt inp σ t.id d)
    ∧ (gapHours (maxAllowed inp.schoolHours d) = [] → σ.gapPresent t.id d = false)

/-- `no_gap_heavy = heavy AND NOT gap_present`, by three linear
constraints. -/
def NoGapHeavyCons (inp : Input) (σ : Solution) : Prop :=
  ∀ t ∈ inp.teachers, ∀ d < 5,
    (b2n (σ.noGapHeavy t.id d) : Int) ≤ b2n (σ.heavy t.id d)
    ∧ (b2n (σ.noGapHeavy t.id d) : Int) ≤ 1 - b2n (σ.gapPresent t.id d)
    ∧ (b2n (σ.heavy t.id d) : Int) - b2n (σ.gapPresent t.id d) ≤ b2n (σ.noGapHeavy t.id d)

instance (inp : Input) (σ : Solution) : Decidable (WeeklyHoursCons inp σ) := by
  unfold WeeklyHoursCons; infer_instance

instance (inp : Input) (σ : Solution) : Decidable (MaxConsecCons inp σ) := by
  unfold MaxConsecCons; infer_instance

instance (inp : Input) (σ : Solution) : Decidable (ContiguityCons inp σ) := by
  unfold ContiguityCons; infer_instance

instance (inp : Input) (σ : Solution) : Decidable (LinkCons inp σ) := by
  unfold LinkCons; infer_instance

instance (inp : Input) (σ : Solution) : Decidable (ClassSlotCons inp σ) := by
  unfold ClassSlotCons; infer_instance

instance (inp : Input) (σ : Solution) : Decidable (TeacherSlotCons inp σ) := by
  unfold TeacherSlotCons; infer_instance

instance (inp : Input) (σ : Solution) : Decidable (DailyCapCons inp σ) := by
  unfold DailyCapCons; infer_instance

instance (inp : Input) (σ : Solution) : Decidable (FixedCons inp σ) := by
  unfold FixedCons; infer_instance

instance (inp : Input) (σ : Solution) : Decidable (OccCons inp σ) := by
  unfold OccCons; infer_instance

instance (inp : Input) (σ : Solution) : Decidable (HeavyCons inp σ) := by
  unfold HeavyCons; infer_instance

instance (g a m b : Bool) : Decidable (gapCons g a m b) := by
  unfold gapCons; infer_instance

instance (inp : Input) (σ : Solution) : Decidable (GapDefCons inp σ) := by
  unfold GapDefCons; infer_instance

instance (inp : Input) (σ : Solution) : Decidable (GapCapCons inp σ) := by
  unfold GapCapCons; infer_instance

instance (inp : Input) (σ : Solution) : Decidable (GapPresentCons inp σ) := by
  unfold GapPresentCons; infer_instance

instance (inp : Input) (σ : Solution) : Decidable (NoGapHeavyCons inp σ) := by
  unfold NoGapHeavyCons; infer_instance

/-- A valuation satisfies the model `solve_cp_sat` builds: the conjunction
of every posted constraint family.  Any solution the backend returns with
status OPTIMAL or FEASIBLE satisfies this. -/
structure Satisfies (inp : Input) (σ : Solution) : Prop where
  weekly : WeeklyHoursCons inp σ
  maxConsec : MaxConsecCons inp σ
  contiguity : ContiguityCons inp σ
  link : LinkCons inp σ
  classSlot : ClassSlotCons inp σ
  teacherSlot : TeacherSlotCons inp σ
  dailyCap : DailyCapCons inp σ
  fixedPins : FixedCons inp σ
  occ : OccCons inp σ
  heavy : HeavyCons inp σ
  gapDef : GapDefCons inp σ
  gapCap : GapCapCons inp σ
  gapPresentOr : GapPresentCons inp σ
  noGapHeavyAnd : NoGapHeavyCons inp σ

/-- Assemble `Satisfies` from one decidable conjunction. -/
theorem satisfies_of_all {inp : Input} {σ : Solution}
    (h : WeeklyHoursCons inp σ ∧ MaxConsecCons inp σ ∧ ContiguityCons inp σ
      ∧ LinkCons inp σ ∧ ClassSlotCons inp σ ∧ TeacherSlotCons inp σ
      ∧ DailyCapCons inp σ ∧ FixedCons inp σ ∧ OccCons inp σ ∧ HeavyCons inp σ
      ∧ GapDefCons inp σ ∧ GapCapCons inp σ ∧ GapPresentCons inp σ
      ∧ NoGapHeavyCons inp σ) : Satisfies inp σ :=
  ⟨h.1, h.2.1, h.2.2.1, h.2.2.2.1, h.2.2.2.2.1, h.2.2.2.2.2.1, h.2.2.2.2.2.2.1,
   h.2.2.2.2.2.2.2.1, h.2.2.2.2.2.2.2.2.1, h.2.2.2.2.2.2.2.2.2.1,
   h.2.2.2.2.2.2.2.2.2.2.1, h.2.2.2.2.2.2.2.2.2.2.2.1,
   h.2.2.2.2.2.2.2.2.2.2.2.2.1, h.2.2.2.2.2.2.2.2.2.2.2.2.2⟩

/-- The CP-SAT termination statuses `solve_cp_sat` distinguishes. -/
inductive CpStatus where
  | OPTIMAL
  | FEASIBLE
  | INFEASIBLE
  | MODEL_INVALID
  | UNKNOWN
deriving DecidableEq, Repr

/-- `status_map`. -/
def statusName : CpStatus → String
  | CpStatus.OPTIMAL => "OPTIMAL"
  | CpStatus.FEASIBLE => "FEASIBLE"
  | CpStatus.INFEASIBLE => "INFEASIBLE"
  | CpStatus.MODEL_INVALID => "MODEL_INVALID"
  | CpStatus.UNKNOWN => "UNKNOWN"

/-- One non-null schedule cell. -/
structure Cell where
  subjectId : String
  teacherId : String
  locationId : Option String
  classroomId : String
deriving DecidableEq, Repr

/-- A classroom grid: 5 day rows of optional cells. -/
abbrev Grid := List (List (Option Cell))

/-- The schedule dict, as a total function from classroom ids; ids not in
the dict map to the junk value `[]` (the source would raise `KeyError`,
which no reachable path does). -/
abbrev Schedule := String → Grid

/-- The empty grid of a classroom: 5 rows, row `d` of length
`allowed[d]`, all cells null. -/
def emptyGrid (sh : SchoolHours) (lvl : Level) : Grid :=
  (List.range 5).map (fun d => (List.range (allowedLen sh lvl d)).map (fun _ => none))

/-- `schedule[c['id']] = per_day` over the classroom list: the last
classroom with a given id wins, exactly like `classroom_by_id`. -/
def initSchedule (inp : Input) : Schedule :=
  fun cid =>
    match classroom_by_id inp cid with
    | some c => emptyGrid inp.schoolHours c.level
    | none => []

/-- `schedule[cid][d][h]` with out-of-range reads defaulting to null. -/
def cellAt (sch : Schedule) (cid : String) (d h : Nat) : Option Cell :=
  ((sch cid).getD d []).getD h none

/-- The assignment dict built for a true `x` variable. -/
def mkCell (inp : Input) (k : Key) : Cell :=
  { subjectId := k.sid
    teacherId := k.tid
    locationId := (subject_by_id inp k.sid).bind (fun s => s.locationId)
    classroomId := k.cid }

/-- One iteration of the extraction loop: when the variable is true and the
target cell exists and is still null, write the assignment and count a
placement. -/
def placeKey (inp : Input) (σx : Key → Bool) (st : Schedule × Nat) (k : Key) :
    Schedule × Nat :=
  if σx k then
    let g := st.1 k.cid
    let row := g.getD k.d []
    if k.d < g.length ∧ k.h < row.length ∧ row.getD k.h none = none then
      (fun cid2 => if cid2 = k.cid then g.set k.d (row.set k.h (some (mkCell inp k)))
        else st.1 cid2,
       st.2 + 1)
    else st
  else st

/-- The extraction loop over `x.items()` in dict order. -/
def extract (inp : Input) (σx : Key → Bool) : Schedule × Nat :=
  (xKeys inp).foldl (placeKey inp σx) (initSchedule inp, 0)

/-- The parts of the returned value the claims are about: the schedule
grids, `stats.placements`, `stats.notes`, `stats.timedOut`. -/
structure SolveResult where
  schedule : Schedule
  placements : Nat
  notes : List String
  timedOut : Bool

/-- The post-solve tail of `solve_cp_sat`: extraction runs only for status
OPTIMAL or FEASIBLE; `notes` always ends with the `status=` token, and
`timedOut` is the UNKNOWN test.  The function always returns. -/
def solve_cp_sat (inp : Input) (status : CpStatus) (σ : Solution) : SolveResult :=
  if status = CpStatus.OPTIMAL ∨ status = CpStatus.FEASIBLE then
    { schedule := (extract inp σ.x).1
      placements := (extract inp σ.x).2
      notes := skipNotes inp ++ ["status=" ++ statusName status]
      timedOut := status == CpStatus.UNKNOWN }
  else
    { schedule := initSchedule inp
      placements := 0
      notes := skipNotes inp ++ ["status=" ++ statusName status]
      timedOut := status == CpStatus.UNKNOWN }

/-- Does this cell hold the given subject?  (Null cells do not.) -/
def isSubjCell (sid : String) : Option Cell → Bool
  | some cell => cell.subjectId == sid
  | none => false

/-- The number of cells of a grid whose `subjectId` equals `sid`. -/
def countSubj (g : Grid) (sid : String) : Nat :=
  (g.map (fun row => row.countP (isSubjCell sid))).sum

/-- `W_EDGE = int(prefs.get('edgeWeight', 1))`: no clamping. -/
def W_EDGE (p : Preferences) : Int :=
  p.edgeWeight.getD 1

/-- `W_NOGAP = int(prefs.get('nogapWeight', 3))`: no clamping. -/
def W_NOGAP (p : Preferences) : Int :=
  p.nogapWeight.getD 3

/-- `teacher_gap_weight`: `max(0, int(...))` when present and parsable,
otherwise 0. -/
def teacherGapWeightVal (p : Preferences) : Int :=
  match p.teacherGapWeight with
  | none => 0
  | some v => max 0 v

/-- `Σ edge_penalty`: for each teacher-day with a non-empty iteration
range, the occupancies of hour 0 and of the last hour (the same variable
counted twice on one-hour days, as in the source). -/
def edgeSum (inp : Input) (σ : Solution) : Nat :=
  (inp.teachers.map (fun t =>
    ((List.range 5).map (fun d =>
      let al := maxAllowed inp.schoolHours d
      if 0 < al then b2n (σ.o t.id d 0) + b2n (σ.o t.id d (al - 1)) else 0)).sum)).sum

/-- `Σ nogap_penalty`: one `no_gap_heavy` term per teacher-day. -/
def nogapSum (inp : Input) (σ : Solution) : Nat :=
  (inp.teachers.map (fun t =>
    ((List.range 5).map (fun d => b2n (σ.noGapHeavy t.id d))).sum)).sum

/-- `Σ gap_penalty`: every gap indicator of every teacher-day. -/
def gapObjSum (inp : Input) (σ : Solution) : Nat :=
  (inp.teachers.map (fun t =>
    ((List.range 5).map (fun d => gapSumAt inp σ t.id d)).sum)).sum

/-- The objective `solve_cp_sat` passes to `model.Minimize`, or `none` when
the source skips the call (`stop_at_first` set, or no weight positive). -/
def minimizedObjective (inp : Input) (σ : Solution) : Option Int :=
  if inp.stopAtFirst = false
      ∧ (0 < W_EDGE inp.prefs ∨ 0 < W_NOGAP inp.prefs
          ∨ 0 < teacherGapWeightVal inp.prefs) then
    some (W_EDGE inp.prefs * edgeSum inp σ
      + W_NOGAP inp.prefs * nogapSum inp σ
      + teacherGapWeightVal inp.prefs * gapObjSum inp σ)
  else none

/-! ### List and dictionary lemmas -/

theorem mem_insKey {ks : List Key} {k a : Key} : a ∈ insKey ks k ↔ a ∈ ks ∨ a = k := by
  unfold insKey
  split
  · rename_i hk
    constructor
    · exact fun h => Or.inl h
    · rintro (h | rfl)
      · exact h
      · exact hk
  · simp [List.mem_append]

theorem nodup_insKey {ks : List Key} {k : Key} (h : ks.Nodup) : (insKey ks k).Nodup := by
  unfold insKey
  split
  · exact h
  · rename_i hmem
    rw [List.nodup_append]
    refine ⟨h, List.nodup_singleton k, ?_⟩
    intro a ha hb
    rw [List.mem_singleton] at hb
    exact hmem (hb ▸ ha)

theorem mem_foldl_insKey {l : List Key} :
    ∀ {acc : List Key} {a : Key}, a ∈ l.foldl insKey acc ↔ a ∈ acc ∨ a ∈ l := by
  induction l with
  | nil => simp
  | cons k l ih =>
    intro acc a
    rw [List.foldl_cons, ih, mem_insKey]
    simp [List.mem_cons, or_assoc]

theorem nodup_foldl_insKey {l : List Key} :
    ∀ {acc : List Key}, acc.Nodup → (l.foldl insKey acc).Nodup := by
  induction l with
  | nil => intro acc h; simpa using h
  | cons k l ih => intro acc h; exact ih (nodup_insKey h)

theorem mem_dedupK {l : List Key} {a : Key} : a ∈ dedupK l ↔ a ∈ l := by
  unfold dedupK
  rw [mem_foldl_insKey]
  simp

theorem nodup_dedupK (l : List Key) : (dedupK l).Nodup :=
  nodup_foldl_insKey List.nodup_nil

theorem nodup_xKeys (inp : Input) : (xKeys inp).Nodup :=
  nodup_dedupK _

theorem bsum_eq_length_filter (l : List Key) (f : Key → Bool) :
    bsum l f = (l.filter f).length := by
  induction l with
  | nil => rfl
  | cons k l ih =>
    rw [bsum, List.map_cons, List.sum_cons, List.filter_cons]
    rw [bsum] at ih
    cases hf : f k
    · rw [ih]
      simp [b2n]
    · rw [ih]
      simp only [b2n, if_true, List.length_cons, if_pos rfl]
      omega

theorem two_le_length_of_mem_ne {l : List Key} {a b : Key} (ha : a ∈ l) (hb : b ∈ l)
    (hne : a ≠ b) : 2 ≤ l.length := by
  cases l with
  | nil => cases ha
  | cons x xs =>
    cases xs with
    | nil =>
      rw [List.mem_singleton] at ha hb
      exact absurd (ha.trans hb.symm) hne
    | cons y ys =>
      simp only [List.length_cons]
      omega

theorem two_le_bsum {l : List Key} {f : Key → Bool} {a b : Key}
    (ha : a ∈ l) (hb : b ∈ l) (hne : a ≠ b) (hfa : f a = true) (hfb : f b = true) :
    2 ≤ bsum l f := by
  rw [bsum_eq_length_filter]
  exact two_le_length_of_mem_ne (List.mem_filter.mpr ⟨ha, hfa⟩)
    (List.mem_filter.mpr ⟨hb, hfb⟩) hne

theorem bsum_pos_of_mem {l : List Key} {f : Key → Bool} {a : Key}
    (ha : a ∈ l) (hfa : f a = true) : 1 ≤ bsum l f := by
  rw [bsum_eq_length_filter]
  have : a ∈ l.filter f := List.mem_filter.mpr ⟨ha, hfa⟩
  cases hl : l.filter f with
  | nil => rw [hl] at this; cases this
  | cons x xs => simp

theorem getD_none_of_all_none {L : List (Option Cell)} (h : ∀ x ∈ L, x = none) (n : Nat) :
    L.getD n none = none := by
  rw [List.getD_eq_getElem?_getD]
  cases hx : L[n]? with
  | none => rfl
  | some v =>
    have hv := h v (List.getElem?_mem hx)
    simp [hv]

theorem cellAt_all_none {g : Grid} (hg : ∀ row ∈ g, ∀ x ∈ row, x = none) (d h : Nat) :
    (g.getD d []).getD h none = none := by
  rw [List.getD_eq_getElem?_getD (l := g)]
  cases hd : g[d]? with
  | none => rfl
  | some row =>
    simp only [Option.getD_some]
    exact getD_none_of_all_none (hg row (List.getElem?_mem hd)) h

theorem cellAt_initSchedule (inp : Input) (cid : String) (d h : Nat) :
    cellAt (initSchedule inp) cid d h = none := by
  unfold cellAt initSchedule
  cases hc : classroom_by_id inp cid with
  | none => rfl
  | some c =>
    apply cellAt_all_none
    intro row hrow x hx
    simp only [emptyGrid, List.mem_map, List.mem_range] at hrow
    obtain ⟨d2, _, rfl⟩ := hrow
    simp only [List.mem_map, List.mem_range] at hx
    obtain ⟨h2, _, rfl⟩ := hx
    rfl

/-! ### Concrete instances used to exercise the model -/

/-- A teacher of the `Mat` branch, available only Monday hour 0,
middle-school capable. -/
def teacherA : Teacher := ⟨"t1", ["Mat"], [[true]], true, false⟩

/-- One middle-school classroom. -/
def classroomA : Classroom := ⟨"c1", Level.Ortaokul⟩

/-- A one-hour `Mat` subject assigned to `c1`. -/
def subjectMat : Subject := ⟨"s1", "Mat", 1, 0, 0, none, none, ["c1"], []⟩

/-- A one-hour `Fiz` subject assigned to `c1`; no teacher carries the
branch, so its eligible set is empty. -/
def subjectFiz : Subject := ⟨"s2", "Fiz", 1, 0, 0, none, none, ["c1"], []⟩

/-- One teaching hour on Monday for middle school, nothing else. -/
def hoursA : SchoolHours := ⟨[1, 0, 0, 0, 0], [0, 0, 0, 0, 0]⟩

/-- Input with one schedulable subject and one subject that must be
skipped for lack of an eligible teacher. -/
def inputA : Input := ⟨[teacherA], [classroomA], [subjectMat, subjectFiz], [], hoursA, none, {}, false⟩

/-- The single occupancy key of `inputA`. -/
def keyA : Key := ⟨"c1", "s1", "t1", 0, 0⟩

/-- The solution of `inputA`: `Mat` on Monday hour 0. -/
def solA : Solution :=
  { x := fun k => decide (k = keyA)
    y1 := fun k => decide (k = keyA)
    y2 := fun _ => false
    y3 := fun _ => false
    socc := fun cid sid d h => decide (cid = "c1" ∧ sid = "s1" ∧ d = 0 ∧ h = 0)
    o := fun tid d h => decide (tid = "t1" ∧ d = 0 ∧ h = 0)
    gap := fun _ _ _ => false
    heavy := fun _ _ => false
    gapPresent := fun _ _ => false
    noGapHeavy := fun _ _ => false }

/-- The all-false valuation. -/
def solZero : Solution :=
  { x := fun _ => false
    y1 := fun _ => false
    y2 := fun _ => false
    y3 := fun _ => false
    socc := fun _ _ _ _ => false
    o := fun _ _ _ => false
    gap := fun _ _ _ => false
    heavy := fun _ _ => false
    gapPresent := fun _ _ => false
    noGapHeavy := fun _ _ => false }

/-- Preferences exercising the weight defaults and the negative-weight
clamp of `teacherGapWeight`. -/
def prefsK : Preferences := ⟨false, none, some (-3), none, some (-2), some 7⟩

/-- Preferences with all three weights zero (after the clamp). -/
def prefsG : Preferences := ⟨false, none, some (-4), none, some 0, some 0⟩

/-- An empty catalog carrying `prefsG`. -/
def inputG : Input := ⟨[], [], [], [], ⟨[0, 0, 0, 0, 0], [0, 0, 0, 0, 0]⟩, none, prefsG, false⟩

/-! ### C5: reporting of INFEASIBLE / MODEL_INVALID / UNKNOWN -/

/-- C5: when the solver status is INFEASIBLE, MODEL_INVALID or UNKNOWN,
`solve_cp_sat` still returns a result; its schedule grids contain only
null cells, `stats.placements` is 0, `stats.notes` ends with a `status=`
token naming that status, and `stats.timedOut` holds exactly for
UNKNOWN. -/
theorem c5_status_handling (inp : Input) (σ : Solution) (status : CpStatus)
    (h : status = CpStatus.INFEASIBLE ∨ status = CpStatus.MODEL_INVALID
      ∨ status = CpStatus.UNKNOWN) :
    (∀ cid d hh, cellAt (solve_cp_sat inp status σ).schedule cid d hh = none)
    ∧ (solve_cp_sat inp status σ).placements = 0
    ∧ (solve_cp_sat inp status σ).notes.getLast? = some ("status=" ++ statusName status)
    ∧ ((solve_cp_sat inp status σ).timedOut = true ↔ status = CpStatus.UNKNOWN) := by
  have hne : ¬(status = CpStatus.OPTIMAL ∨ status = CpStatus.FEASIBLE) := by
    rcases h with rfl | rfl | rfl <;> decide
  have hres : solve_cp_sat inp status σ =
      { schedule := initSchedule inp
        placements := 0
        notes := skipNotes inp ++ ["status=" ++ statusName status]
        timedOut := status == CpStatus.UNKNOWN } := by
    unfold solve_cp_sat
    rw [if_neg hne]
  rw [hres]
  refine ⟨fun cid d hh => cellAt_initSchedule inp cid d hh, rfl, ?_, ?_⟩
  · exact List.getLast?_concat _
  · simp [beq_iff_eq]

theorem c5_status_handling_witness :
    cellAt (solve_cp_sat inputA CpStatus.INFEASIBLE solA).schedule "c1" 0 0 = none
    ∧ (solve_cp_sat inputA CpStatus.INFEASIBLE solA).placements = 0
    ∧ (solve_cp_sat inputA CpStatus.INFEASIBLE solA).notes.getLast?
        = some "status=INFEASIBLE"
    ∧ (solve_cp_sat inputA CpStatus.INFEASIBLE solA).timedOut = false := by
  have h := c5_status_handling inputA solA CpStatus.INFEASIBLE (Or.inl rfl)
  refine ⟨h.1 "c1" 0 0, h.2.1, h.2.2.1.trans (by decide), ?_⟩
  cases ht : (solve_cp_sat inputA CpStatus.INFEASIBLE solA).timedOut
  · rfl
  · exact absurd (h.2.2.2.mp ht) (by decide)

/-! ### C8: when the objective is posted and what it minimizes -/

/-- C8: the objective is omitted exactly when `stop_at_first` is set or all
three weights are zero (weights are non-negative per the data model; the
teacher-gap weight is clamped non-negative by the code); otherwise it is
`W_E·Σ edgePenalty + W_N·Σ noGapPenalty + W_G·Σ gap`; absent preferences
default to `edgeWeight=1`, `nogapWeight=3`, `teacherGapWeight=0`. -/
theorem c8_objective (inp : Input) (σ : Solution)
    (hE : 0 ≤ W_EDGE inp.prefs) (hN : 0 ≤ W_NOGAP inp.prefs) :
    (minimizedObjective inp σ = none ↔
      (inp.stopAtFirst = true
        ∨ (W_EDGE inp.prefs = 0 ∧ W_NOGAP inp.prefs = 0
            ∧ teacherGapWeightVal inp.prefs = 0)))
    ∧ (∀ v, minimizedObjective inp σ = some v →
        v = W_EDGE inp.prefs * edgeSum inp σ + W_NOGAP inp.prefs * nogapSum inp σ
          + teacherGapWeightVal inp.prefs * gapObjSum inp σ)
    ∧ (inp.prefs.edgeWeight = none → W_EDGE inp.prefs = 1)
    ∧ (inp.prefs.nogapWeight = none → W_NOGAP inp.prefs = 3)
    ∧ (inp.prefs.teacherGapWeight = none → teacherGapWeightVal inp.prefs = 0) := by
  have hG : 0 ≤ teacherGapWeightVal inp.prefs := by
    unfold teacherGapWeightVal
    cases inp.prefs.teacherGapWeight
    · exact le_refl 0
    · exact le_max_left 0 _
  refine ⟨?_, ?_, ?_, ?_, ?_⟩
  · unfold minimizedObjective
    by_cases hc : inp.stopAtFirst = false
        ∧ (0 < W_EDGE inp.prefs ∨ 0 < W_NOGAP inp.prefs
            ∨ 0 < teacherGapWeightVal inp.prefs)
    · rw [if_pos hc]
      constructor
      · intro hx
        exact Option.noConfusion hx
      · rintro (hstop | ⟨he, hn, hg⟩)
        · rw [hc.1] at hstop
          exact absurd hstop Bool.false_ne_true
        · rcases hc.2 with hp | hp | hp <;> omega
    · rw [if_neg hc]
      constructor
      · intro _
        by_cases hstop : inp.stopAtFirst = true
        · exact Or.inl hstop
        · have hsf : inp.stopAtFirst = false := by
            cases hb : inp.stopAtFirst
            · rfl
            · exact absurd hb hstop
          have hB : ¬(0 < W_EDGE inp.prefs ∨ 0 < W_NOGAP inp.prefs
              ∨ 0 < teacherGapWeightVal inp.prefs) := fun hb => hc ⟨hsf, hb⟩
          push_neg at hB
          exact Or.inr ⟨by omega, by omega, by omega⟩
      · intro _
        rfl
  · intro v hv
    unfold minimizedObjective at hv
    split at hv
    · injection hv with hv2
      exact hv2.symm
    · exact Option.noConfusion hv
  · intro h
    unfold W_EDGE
    rw [h]
    rfl
  · intro h
    unfold W_NOGAP
    rw [h]
    rfl
  · intro h
    unfold teacherGapWeightVal
    rw [h]

theorem c8_objective_witness : minimizedObjective inputG solZero = none :=
  (c8_objective inputG solZero (by decide) (by decide)).1.mpr
    (Or.inr ⟨by decide, by decide, by decide⟩)

/-! ### C10: the teacher-gap weight is clamped, the others are not -/

/-- C10: the teacher-gap weight actually used is never negative (absent or
unparsable values become 0, negative values are clamped to 0), while
`edgeWeight` and `nogapWeight` are taken as converted with no lower
clamp. -/
theorem c10_gap_weight_clamp (p : Preferences) :
    0 ≤ teacherGapWeightVal p
    ∧ (∀ v, p.teacherGapWeight = some v → v < 0 → teacherGapWeightVal p = 0)
    ∧ (∀ v, p.edgeWeight = some v → W_EDGE p = v)
    ∧ (∀ v, p.nogapWeight = some v → W_NOGAP p = v) := by
  refine ⟨?_, ?_, ?_, ?_⟩
  · unfold teacherGapWeightVal
    cases p.teacherGapWeight
    · exact le_refl 0
    · exact le_max_left 0 _
  · intro v hv hneg
    unfold teacherGapWeightVal
    rw [hv]
    exact max_eq_left (le_of_lt hneg)
  · intro v hv
    unfold W_EDGE
    rw [hv]
    rfl
  · intro v hv
    unfold W_NOGAP
    rw [hv]
    rfl

theorem c10_gap_weight_clamp_witness :
    teacherGapWeightVal prefsK = 0 ∧ W_EDGE prefsK = -2 ∧ W_NOGAP prefsK = 7
      ∧ 0 ≤ teacherGapWeightVal prefsK :=
  ⟨(c10_gap_weight_clamp prefsK).2.1 (-3) rfl (by decide),
   (c10_gap_weight_clamp prefsK).2.2.1 (-2) rfl,
   (c10_gap_weight_clamp prefsK).2.2.2 7 rfl,
   (c10_gap_weight_clamp prefsK).1⟩

/-! ### C7: gap indicators and the hard gap cap -/

/-- The four linear constraints pin the gap indicator to the 1,0,1
pattern. -/
theorem gapCons_iff {g a m b : Bool} (h : gapCons g a m b) :
    (g = true ↔ (a = true ∧ m = false ∧ b = true)) := by
  rcases h with ⟨h1, h2, h3, h4⟩
  cases g <;> cases a <;> cases m <;> cases b <;> simp_all [b2n]

/-- A teacher with no branch restriction, available Monday hours 0-2. -/
def teacherB : Teacher := ⟨"t1", [], [[true, true, true]], true, false⟩

/-- Three Monday hours for middle school. -/
def hoursB : SchoolHours := ⟨[3, 0, 0, 0, 0], [0, 0, 0, 0, 0]⟩

/-- Preferences with a hard teacher-gap cap of one hour. -/
def prefsB : Preferences := ⟨false, some 1, none, none, none, none⟩

/-- Two one-hour subjects in one classroom, three-hour day, gap cap 1. -/
def inputB : Input :=
  ⟨[teacherB], [classroomA],
   [⟨"s1", "Mat", 1, 0, 0, none, none, ["c1"], []⟩,
    ⟨"s2", "Fiz", 1, 0, 0, none, none, ["c1"], []⟩],
   [], hoursB, none, prefsB, false⟩

/-- A solution of `inputB` with lessons at hours 0 and 2, so the teacher
has a gap at hour 1. -/
def solB : Solution :=
  { x := fun k => decide (k = ⟨"c1", "s1", "t1", 0, 0⟩ ∨ k = ⟨"c1", "s2", "t1", 0, 2⟩)
    y1 := fun k => decide (k = ⟨"c1", "s1", "t1", 0, 0⟩ ∨ k = ⟨"c1", "s2", "t1", 0, 2⟩)
    y2 := fun _ => false
    y3 := fun _ => false
    socc := fun cid sid d h =>
      decide ((cid = "c1" ∧ sid = "s1" ∧ d = 0 ∧ h = 0)
        ∨ (cid = "c1" ∧ sid = "s2" ∧ d = 0 ∧ h = 2))
    o := fun tid d h => decide (tid = "t1" ∧ d = 0 ∧ (h = 0 ∨ h = 2))
    gap := fun tid d h => decide (tid = "t1" ∧ d = 0 ∧ h = 1)
    heavy := fun _ _ => false
    gapPresent := fun tid d => decide (tid = "t1" ∧ d = 0)
    noGapHeavy := fun _ _ => false }

theorem satisfies_inputB : Satisfies inputB solB :=
  satisfies_of_all (by decide)

/-- C7: under any satisfying valuation, a gap indicator is true exactly
when the teacher occupancy pattern at `(h-1, h, h+1)` is 1,0,1, and when
`maxTeacherGapHours = G ≥ 0` is supplied the per-(teacher, day) gap count
is at most `G`. -/
theorem c7_gap_constraints (inp : Input) (σ : Solution) (hsat : Satisfies inp σ) :
    ∀ t ∈ inp.teachers, ∀ d < 5,
      (∀ h < maxAllowed inp.schoolHours d, 1 ≤ h → h + 1 < maxAllowed inp.schoolHours d →
        (σ.gap t.id d h = true ↔
          (σ.o t.id d (h - 1) = true ∧ σ.o t.id d h = false ∧ σ.o t.id d (h + 1) = true)))
      ∧ (∀ G, inp.prefs.maxTeacherGapHours = some G → 0 ≤ G →
          (gapSumAt inp σ t.id d : Int) ≤ G) := by
  intro t ht d hd
  constructor
  · intro h hlt h1 h2
    exact gapCons_iff (hsat.gapDef t ht d hd h hlt h1 h2)
  · intro G hG hGnn
    have hval : maxTeacherGapVal inp.prefs = some G := by
      unfold maxTeacherGapVal
      rw [hG]
      exact if_pos hGnn
    have hcap := hsat.gapCap
    unfold GapCapCons at hcap
    rw [hval] at hcap
    by_cases hemp : gapHours (maxAllowed inp.schoolHours d) = []
    · rw [gapSumAt, hemp]
      simpa using hGnn
    · exact hcap t ht d hd hemp

theorem c7_gap_constraints_witness :
    solB.gap "t1" 0 1 = true ∧ (gapSumAt inputB solB "t1" 0 : Int) ≤ 1 := by
  have h := c7_gap_constraints inputB solB satisfies_inputB teacherB (by decide) 0 (by decide)
  exact ⟨(h.1 1 (by decide) (by decide) (by decide)).mpr ⟨by decide, by decide, by decide⟩,
    h.2 1 rfl (by decide)⟩

/-! ### Characterizing the generated variable keys -/

theorem classroom_by_id_mem {inp : Input} {cid : String} {c : Classroom}
    (h : classroom_by_id inp cid = some c) : c ∈ inp.classrooms ∧ c.id = cid := by
  unfold classroom_by_id at h
  refine ⟨List.mem_reverse.mp (List.mem_of_find?_eq_some h), ?_⟩
  have := List.find?_some h
  simpa [beq_iff_eq] using this

theorem teacher_by_id_mem {inp : Input} {tid : String} {t : Teacher}
    (h : teacher_by_id inp tid = some t) : t ∈ inp.teachers ∧ t.id = tid := by
  unfold teacher_by_id at h
  refine ⟨List.mem_reverse.mp (List.mem_of_find?_eq_some h), ?_⟩
  have := List.find?_some h
  simpa [beq_iff_eq] using this

theorem isSome_of_pinnedOk {inp : Input} {c : Classroom} {s : Subject} {p : String}
    (h : pinnedOk inp c s = some p) : (teacher_by_id inp p).isSome := by
  unfold pinnedOk at h
  cases hl : pinnedLookup s c.id with
  | none =>
    rw [hl] at h
    cases h
  | some q =>
    rw [hl] at h
    have h2 : (if q ≠ "" ∧ (teacher_by_id inp q).isSome = true then some q else none)
        = some p := h
    split at h2
    · rename_i hcond
      injection h2 with h3
      subst h3
      exact hcond.2
    · cases h2

theorem exists_teacher_of_eligible {inp : Input} {c : Classroom} {s : Subject} {tid : String}
    (h : tid ∈ eligible_teachers inp c s) : ∃ t ∈ inp.teachers, t.id = tid := by
  unfold eligible_teachers at h
  cases hp : pinnedOk inp c s with
  | some p =>
    rw [hp] at h
    rw [List.mem_singleton] at h
    subst h
    have hs := isSome_of_pinnedOk hp
    cases ht : teacher_by_id inp tid with
    | none => rw [ht] at hs; cases hs
    | some t => exact ⟨t, (teacher_by_id_mem ht).1, (teacher_by_id_mem ht).2⟩
  | none =>
    rw [hp] at h
    rw [List.mem_map] at h
    obtain ⟨t, ht, rfl⟩ := h
    exact ⟨t, (List.mem_filter.mp ht).1, rfl⟩

theorem xBlock_eq_none {inp : Input} {s : Subject} {cid : String}
    (hc : classroom_by_id inp cid = none) : xBlock inp s cid = [] := by
  unfold xBlock
  rw [hc]

theorem xBlock_eq_some {inp : Input} {s : Subject} {cid : String} {c : Classroom}
    (hc : classroom_by_id inp cid = some c) :
    xBlock inp s cid =
      (if eligible_teachers inp c s = [] then [] else
        (eligible_teachers inp c s).flatMap (fun _ =>
          (eligible_teachers inp c s).flatMap (fun tid =>
            (List.range 5).flatMap (fun d =>
              (List.range (allowedLen inp.schoolHours c.level d)).map (fun h =>
                ⟨cid, s.id, tid, d, h⟩))))) := by
  unfold xBlock
  rw [hc]

theorem y1Block_eq_none {inp : Input} {s : Subject} {cid : String}
    (hc : classroom_by_id inp cid = none) : y1Block inp s cid = [] := by
  unfold y1Block
  rw [hc]

theorem y1Block_eq_some {inp : Input} {s : Subject} {cid : String} {c : Classroom}
    (hc : classroom_by_id inp cid = some c) :
    y1Block inp s cid =
      (if eligible_teachers inp c s = [] then [] else
        (eligible_teachers inp c s).flatMap (fun tid =>
          (List.range 5).flatMap (fun d =>
            ((List.range (allowedLen inp.schoolHours c.level d)).filter (fun h =>
              tAvail inp tid d h)).map (fun h =>
              ⟨cid, s.id, tid, d, h⟩)))) := by
  unfold y1Block
  rw [hc]

theorem y2Block_eq_none {inp : Input} {s : Subject} {cid : String}
    (hc : classroom_by_id inp cid = none) : y2Block inp s cid = [] := by
  unfold y2Block
  rw [hc]

theorem y2Block_eq_some {inp : Input} {s : Subject} {cid : String} {c : Classroom}
    (hc : classroom_by_id inp cid = some c) :
    y2Block inp s cid =
      (if eligible_teachers inp c s = [] then [] else
        (eligible_teachers inp c s).flatMap (fun tid =>
          (List.range 5).flatMap (fun d =>
            ((List.range (allowedLen inp.schoolHours c.level d)).filter (fun h =>
              decide (h + 1 < allowedLen inp.schoolHours c.level d)
              && tAvail inp tid d h && tAvail inp tid d (h + 1))).map (fun h =>
              ⟨cid, s.id, tid, d, h⟩)))) := by
  unfold y2Block
  rw [hc]

theorem y3Block_eq_none {inp : Input} {s : Subject} {cid : String}
    (hc : classroom_by_id inp cid = none) : y3Block inp s cid = [] := by
  unfold y3Block
  rw [hc]

theorem y3Block_eq_some {inp : Input} {s : Subject} {cid : String} {c : Classroom}
    (hc : classroom_by_id inp cid = some c) :
    y3Block inp s cid =
      (if eligible_teachers inp c s = [] then [] else
        (eligible_teachers inp c s).flatMap (fun tid =>
          (List.range 5).flatMap (fun d =>
            ((List.range (allowedLen inp.schoolHours c.level d)).filter (fun h =>
              decide (h + 2 < allowedLen inp.schoolHours c.level d)
              && tAvail inp tid d h && tAvail inp tid d (h + 1)
              && tAvail inp tid d (h + 2))).map (fun h =>
              ⟨cid, s.id, tid, d, h⟩)))) := by
  unfold y3Block
  rw [hc]

theorem mem_xBlock {inp : Input} {s : Subject} {cid : String} {k : Key} :
    k ∈ xBlock inp s cid ↔
      ∃ c, classroom_by_id inp cid = some c
        ∧ eligible_teachers inp c s ≠ []
        ∧ k.tid ∈ eligible_teachers inp c s
        ∧ k.cid = cid ∧ k.sid = s.id ∧ k.d < 5
        ∧ k.h < allowedLen inp.schoolHours c.level k.d := by
  cases hc : classroom_by_id inp cid with
  | none => simp [xBlock_eq_none hc, hc]
  | some c =>
    rw [xBlock_eq_some hc]
    by_cases he : eligible_teachers inp c s = []
    · simp [he, hc]
    · rw [if_neg he]
      constructor
      · intro hk
        rw [List.mem_flatMap] at hk
        obtain ⟨tid0, htid0, hk⟩ := hk
        rw [List.mem_flatMap] at hk
        obtain ⟨tid, htid, hk⟩ := hk
        rw [List.mem_flatMap] at hk
        obtain ⟨d, hd, hk⟩ := hk
        rw [List.mem_map] at hk
        obtain ⟨h, hh, rfl⟩ := hk
        rw [List.mem_range] at hd
        rw [List.mem_range] at hh
        exact ⟨c, rfl, he, htid, rfl, rfl, hd, hh⟩
      · rintro ⟨c2, hc2, -, htid, hcid, hsid, hd, hh⟩
        injection hc2 with hc2
        subst hc2
        rw [List.mem_flatMap]
        refine ⟨k.tid, htid, ?_⟩
        rw [List.mem_flatMap]
        refine ⟨k.tid, htid, ?_⟩
        rw [List.mem_flatMap]
        refine ⟨k.d, List.mem_range.mpr hd, ?_⟩
        rw [List.mem_map]
        refine ⟨k.h, List.mem_range.mpr hh, ?_⟩
        cases k
        simp_all

theorem mem_y1Block {inp : Input} {s : Subject} {cid : String} {k : Key} :
    k ∈ y1Block inp s cid ↔
      ∃ c, classroom_by_id inp cid = some c
        ∧ eligible_teachers inp c s ≠ []
        ∧ k.tid ∈ eligible_teachers inp c s
        ∧ k.cid = cid ∧ k.sid = s.id ∧ k.d < 5
        ∧ k.h < allowedLen inp.schoolHours c.level k.d
        ∧ tAvail inp k.tid k.d k.h = true := by
  cases hc : classroom_by_id inp cid with
  | none => simp [y1Block_eq_none hc, hc]
  | some c =>
    rw [y1Block_eq_some hc]
    by_cases he : eligible_teachers inp c s = []
    · simp [he, hc]
    · rw [if_neg he]
      constructor
      · intro hk
        rw [List.mem_flatMap] at hk
        obtain ⟨tid, htid, hk⟩ := hk
        rw [List.mem_flatMap] at hk
        obtain ⟨d, hd, hk⟩ := hk
        rw [List.mem_map] at hk
        obtain ⟨h, hh, rfl⟩ := hk
        rw [List.mem_filter] at hh
        rw [List.mem_range] at hd
        obtain ⟨hh1, hh2⟩ := hh
        rw [List.mem_range] at hh1
        exact ⟨c, rfl, he, htid, rfl, rfl, hd, hh1, hh2⟩
      · rintro ⟨c2, hc2, -, htid, hcid, hsid, hd, hh, hav⟩
        injection hc2 with hc2
        subst hc2
        rw [List.mem_flatMap]
        refine ⟨k.tid, htid, ?_⟩
        rw [List.mem_flatMap]
        refine ⟨k.d, List.mem_range.mpr hd, ?_⟩
        rw [List.mem_map]
        refine ⟨k.h, List.mem_filter.mpr ⟨List.mem_range.mpr hh, hav⟩, ?_⟩
        cases k
        simp_all

theorem mem_y2Block {inp : Input} {s : Subject} {cid : String} {k : Key} :
    k ∈ y2Block inp s cid ↔
      ∃ c, classroom_by_id inp cid = some c
        ∧ eligible_teachers inp c s ≠ []
        ∧ k.tid ∈ eligible_teachers inp c s
        ∧ k.cid = cid ∧ k.sid = s.id ∧ k.d < 5
        ∧ k.h + 1 < allowedLen inp.schoolHours c.level k.d
        ∧ tAvail inp k.tid k.d k.h = true
        ∧ tAvail inp k.tid k.d (k.h + 1) = true := by
  cases hc : classroom_by_id inp cid with
  | none => simp [y2Block_eq_none hc, hc]
  | some c =>
    rw [y2Block_eq_some hc]
    by_cases he : eligible_teachers inp c s = []
    · simp [he, hc]
    · rw [if_neg he]
      constructor
      · intro hk
        rw [List.mem_flatMap] at hk
        obtain ⟨tid, htid, hk⟩ := hk
        rw [List.mem_flatMap] at hk
        obtain ⟨d, hd, hk⟩ := hk
        rw [List.mem_map] at hk
        obtain ⟨h, hh, rfl⟩ := hk
        rw [List.mem_filter] at hh
        rw [List.mem_range] at hd
        obtain ⟨hh1, hh2⟩ := hh
        rw [Bool.and_eq_true, Bool.and_eq_true] at hh2
        obtain ⟨⟨hlt, hav1⟩, hav2⟩ := hh2
        rw [decide_eq_true_eq] at hlt
        exact ⟨c, rfl, he, htid, rfl, rfl, hd, hlt, hav1, hav2⟩
      · rintro ⟨c2, hc2, -, htid, hcid, hsid, hd, hh, hav1, hav2⟩
        injection hc2 with hc2
        subst hc2
        rw [List.mem_flatMap]
        refine ⟨k.tid, htid, ?_⟩
        rw [List.mem_flatMap]
        refine ⟨k.d, List.mem_range.mpr hd, ?_⟩
        rw [List.mem_map]
        refine ⟨k.h, List.mem_filter.mpr ⟨List.mem_range.mpr (by omega), ?_⟩, ?_⟩
        · rw [Bool.and_eq_true, Bool.and_eq_true, decide_eq_true_eq]
          exact ⟨⟨hh, hav1⟩, hav2⟩
        · cases k
          simp_all

theorem mem_y3Block {inp : Input} {s : Subject} {cid : String} {k : Key} :
    k ∈ y3Block inp s cid ↔
      ∃ c, classroom_by_id inp cid = some c
        ∧ eligible_teachers inp c s ≠ []
        ∧ k.tid ∈ eligible_teachers inp c s
        ∧ k.cid = cid ∧ k.sid = s.id ∧ k.d < 5
        ∧ k.h + 2 < allowedLen inp.schoolHours c.level k.d
        ∧ tAvail inp k.tid k.d k.h = true
        ∧ tAvail inp k.tid k.d (k.h + 1) = true
        ∧ tAvail inp k.tid k.d (k.h + 2) = true := by
  cases hc : classroom_by_id inp cid with
  | none => simp [y3Block_eq_none hc, hc]
  | some c =>
    rw [y3Block_eq_some hc]
    by_cases he : eligible_teachers inp c s = []
    · simp [he, hc]
    · rw [if_neg he]
      constructor
      · intro hk
        rw [List.mem_flatMap] at hk
        obtain ⟨tid, htid, hk⟩ := hk
        rw [List.mem_flatMap] at hk
        obtain ⟨d, hd, hk⟩ := hk
        rw [List.mem_map] at hk
        obtain ⟨h, hh, rfl⟩ := hk
        rw [List.mem_filter] at hh
        rw [List.mem_range] at hd
        obtain ⟨hh1, hh2⟩ := hh
        rw [Bool.and_eq_true, Bool.and_eq_true, Bool.and_eq_true] at hh2
        obtain ⟨⟨⟨hlt, hav1⟩, hav2⟩, hav3⟩ := hh2
        rw [decide_eq_true_eq] at hlt
        exact ⟨c, rfl, he, htid, rfl, rfl, hd, hlt, hav1, hav2, hav3⟩
      · rintro ⟨c2, hc2, -, htid, hcid, hsid, hd, hh, hav1, hav2, hav3⟩
        injection hc2 with hc2
        subst hc2
        rw [List.mem_flatMap]
        refine ⟨k.tid, htid, ?_⟩
        rw [List.mem_flatMap]
        refine ⟨k.d, List.mem_range.mpr hd, ?_⟩
        rw [List.mem_map]
        refine ⟨k.h, List.mem_filter.mpr ⟨List.mem_range.mpr (by omega), ?_⟩, ?_⟩
        · rw [Bool.and_eq_true, Bool.and_eq_true, Bool.and_eq_true, decide_eq_true_eq]
          exact ⟨⟨⟨hh, hav1⟩, hav2⟩, hav3⟩
        · cases k
          simp_all

theorem mem_xKeys {inp : Input} {k : Key} :
    k ∈ xKeys inp ↔
      ∃ s ∈ inp.subjects, k.cid ∈ s.assignedClassIds ∧ k.sid = s.id
        ∧ ∃ c, classroom_by_id inp k.cid = some c
          ∧ eligible_teachers inp c s ≠ []
          ∧ k.tid ∈ eligible_teachers inp c s
          ∧ k.d < 5 ∧ k.h < allowedLen inp.schoolHours c.level k.d := by
  unfold xKeys
  rw [mem_dedupK, List.mem_flatMap]
  constructor
  · rintro ⟨s, hs, hk⟩
    rw [List.mem_flatMap] at hk
    obtain ⟨cid, hcid, hk⟩ := hk
    rw [mem_xBlock] at hk
    obtain ⟨c, hc, he, htid, hkcid, hksid, hd, hh⟩ := hk
    subst hkcid
    exact ⟨s, hs, hcid, hksid, c, hc, he, htid, hd, hh⟩
  · rintro ⟨s, hs, hcid, hsid, c, hc, he, htid, hd, hh⟩
    exact ⟨s, hs, List.mem_flatMap.mpr
      ⟨k.cid, hcid, mem_xBlock.mpr ⟨c, hc, he, htid, rfl, hsid, hd, hh⟩⟩⟩

theorem mem_y1Keys {inp : Input} {k : Key} :
    k ∈ y1Keys inp ↔
      ∃ s ∈ inp.subjects, k.cid ∈ s.assignedClassIds ∧ k.sid = s.id
        ∧ ∃ c, classroom_by_id inp k.cid = some c
          ∧ eligible_teachers inp c s ≠ []
          ∧ k.tid ∈ eligible_teachers inp c s
          ∧ k.d < 5 ∧ k.h < allowedLen inp.schoolHours c.level k.d
          ∧ tAvail inp k.tid k.d k.h = true := by
  unfold y1Keys
  rw [mem_dedupK, List.mem_flatMap]
  constructor
  · rintro ⟨s, hs, hk⟩
    rw [List.mem_flatMap] at hk
    obtain ⟨cid, hcid, hk⟩ := hk
    rw [mem_y1Block] at hk
    obtain ⟨c, hc, he, htid, hkcid, hksid, hd, hh, hav⟩ := hk
    subst hkcid
    exact ⟨s, hs, hcid, hksid, c, hc, he, htid, hd, hh, hav⟩
  · rintro ⟨s, hs, hcid, hsid, c, hc, he, htid, hd, hh, hav⟩
    exact ⟨s, hs, List.mem_flatMap.mpr
      ⟨k.cid, hcid, mem_y1Block.mpr ⟨c, hc, he, htid, rfl, hsid, hd, hh, hav⟩⟩⟩

theorem mem_y2Keys {inp : Input} {k : Key} :
    k ∈ y2Keys inp ↔
      ∃ s ∈ inp.subjects, k.cid ∈ s.assignedClassIds ∧ k.sid = s.id
        ∧ ∃ c, classroom_by_id inp k.cid = some c
          ∧ eligible_teachers inp c s ≠ []
          ∧ k.tid ∈ eligible_teachers inp c s
          ∧ k.d < 5 ∧ k.h + 1 < allowedLen inp.schoolHours c.level k.d
          ∧ tAvail inp k.tid k.d k.h = true
          ∧ tAvail inp k.tid k.d (k.h + 1) = true := by
  unfold y2Keys
  rw [mem_dedupK, List.mem_flatMap]
  constructor
  · rintro ⟨s, hs, hk⟩
    rw [List.mem_flatMap] at hk
    obtain ⟨cid, hcid, hk⟩ := hk
    rw [mem_y2Block] at hk
    obtain ⟨c, hc, he, htid, hkcid, hksid, hd, hh, hav1, hav2⟩ := hk
    subst hkcid
    exact ⟨s, hs, hcid, hksid, c, hc, he, htid, hd, hh, hav1, hav2⟩
  · rintro ⟨s, hs, hcid, hsid, c, hc, he, htid, hd, hh, hav1, hav2⟩
    exact ⟨s, hs, List.mem_flatMap.mpr
      ⟨k.cid, hcid, mem_y2Block.mpr ⟨c, hc, he, htid, rfl, hsid, hd, hh, hav1, hav2⟩⟩⟩

theorem mem_y3Keys {inp : Input} {k : Key} :
    k ∈ y3Keys inp ↔
      ∃ s ∈ inp.subjects, k.cid ∈ s.assignedClassIds ∧ k.sid = s.id
        ∧ ∃ c, classroom_by_id inp k.cid = some c
          ∧ eligible_teachers inp c s ≠ []
          ∧ k.tid ∈ eligible_teachers inp c s
          ∧ k.d < 5 ∧ k.h + 2 < allowedLen inp.schoolHours c.level k.d
          ∧ tAvail inp k.tid k.d k.h = true
          ∧ tAvail inp k.tid k.d (k.h + 1) = true
          ∧ tAvail inp k.tid k.d (k.h + 2) = true := by
  unfold y3Keys
  rw [mem_dedupK, List.mem_flatMap]
  constructor
  · rintro ⟨s, hs, hk⟩
    rw [List.mem_flatMap] at hk
    obtain ⟨cid, hcid, hk⟩ := hk
    rw [mem_y3Block] at hk
    obtain ⟨c, hc, he, htid, hkcid, hksid, hd, hh, hav1, hav2, hav3⟩ := hk
    subst hkcid
    exact ⟨s, hs, hcid, hksid, c, hc, he, htid, hd, hh, hav1, hav2, hav3⟩
  · rintro ⟨s, hs, hcid, hsid, c, hc, he, htid, hd, hh, hav1, hav2, hav3⟩
    exact ⟨s, hs, List.mem_flatMap.mpr
      ⟨k.cid, hcid, mem_y3Block.mpr ⟨c, hc, he, htid, rfl, hsid, hd, hh, hav1, hav2, hav3⟩⟩⟩

/-- A `y1` start key is also an occupancy key. -/
theorem xKeys_of_y1 {inp : Input} {k : Key} (h : k ∈ y1Keys inp) : k ∈ xKeys inp := by
  rw [mem_y1Keys] at h
  obtain ⟨s, hs, hcid, hsid, c, hc, he, htid, hd, hh, -⟩ := h
  exact mem_xKeys.mpr ⟨s, hs, hcid, hsid, c, hc, he, htid, hd, hh⟩

/-- A `y2` start key covers the occupancy keys at hours `h` and `h+1`. -/
theorem xKeys_of_y2 {inp : Input} {k : Key} (h : k ∈ y2Keys inp) :
    k ∈ xKeys inp ∧ shiftKey 1 k ∈ xKeys inp := by
  rw [mem_y2Keys] at h
  obtain ⟨s, hs, hcid, hsid, c, hc, he, htid, hd, hh, -, -⟩ := h
  constructor
  · exact mem_xKeys.mpr ⟨s, hs, hcid, hsid, c, hc, he, htid, hd, by omega⟩
  · exact mem_xKeys.mpr ⟨s, hs, hcid, hsid, c, hc, he, htid, hd, by simp [shiftKey]; omega⟩

/-- A `y3` start key covers the occupancy keys at hours `h`, `h+1`, `h+2`. -/
theorem xKeys_of_y3 {inp : Input} {k : Key} (h : k ∈ y3Keys inp) :
    k ∈ xKeys inp ∧ shiftKey 1 k ∈ xKeys inp ∧ shiftKey 2 k ∈ xKeys inp := by
  rw [mem_y3Keys] at h
  obtain ⟨s, hs, hcid, hsid, c, hc, he, htid, hd, hh, -, -, -⟩ := h
  refine ⟨mem_xKeys.mpr ⟨s, hs, hcid, hsid, c, hc, he, htid, hd, by omega⟩,
    mem_xKeys.mpr ⟨s, hs, hcid, hsid, c, hc, he, htid, hd, by simp [shiftKey]; omega⟩,
    mem_xKeys.mpr ⟨s, hs, hcid, hsid, c, hc, he, htid, hd, by simp [shiftKey]; omega⟩⟩

/-- Availability at the hour itself, for each kind of covering start. -/
theorem tAvail_of_y1 {inp : Input} {k : Key} (h : k ∈ y1Keys inp) :
    tAvail inp k.tid k.d k.h = true := by
  rw [mem_y1Keys] at h
  obtain ⟨-, -, -, -, -, -, -, -, -, -, hav⟩ := h
  exact hav

theorem tAvail_of_y2 {inp : Input} {k : Key} (h : k ∈ y2Keys inp) :
    tAvail inp k.tid k.d k.h = true ∧ tAvail inp k.tid k.d (k.h + 1) = true := by
  rw [mem_y2Keys] at h
  obtain ⟨-, -, -, -, -, -, -, -, -, -, hav1, hav2⟩ := h
  exact ⟨hav1, hav2⟩

theorem tAvail_of_y3 {inp : Input} {k : Key} (h : k ∈ y3Keys inp) :
    tAvail inp k.tid k.d k.h = true ∧ tAvail inp k.tid k.d (k.h + 1) = true
      ∧ tAvail inp k.tid k.d (k.h + 2) = true := by
  rw [mem_y3Keys] at h
  obtain ⟨-, -, -, -, -, -, -, -, -, -, hav1, hav2, hav3⟩ := h
  exact ⟨hav1, hav2, hav3⟩

/-! ### Consequences of the link constraints -/

theorem coverSum_eq_zero_of_not_hasCover {inp : Input} {σ : Solution} {k : Key}
    (h : ¬hasCover inp k) : coverSum inp σ k = 0 := by
  unfold hasCover at h
  rw [not_or, not_or, not_or, not_or, not_or] at h
  obtain ⟨h1, h2, h3, h4, h5, h6⟩ := h
  unfold coverSum
  rw [if_neg h1, if_neg h2, if_neg h3, if_neg h4, if_neg h5, if_neg h6]

/-- Both branches of the link constraint give the single equation
`x = Σ cover`. -/
theorem link_b2n {inp : Input} {σ : Solution} (hlink : LinkCons inp σ) :
    ∀ k ∈ xKeys inp, b2n (σ.x k) = coverSum inp σ k := by
  intro k hk
  by_cases hc : hasCover inp k
  · exact (hlink k hk).1 hc
  · rw [(hlink k hk).2 hc, coverSum_eq_zero_of_not_hasCover hc]
    rfl

theorem ite_b2n_pos {P : Prop} [Decidable P] {b : Bool}
    (h : 1 ≤ (if P then b2n b else 0)) : P ∧ b = true := by
  split at h
  · rename_i hp
    refine ⟨hp, ?_⟩
    cases b
    · simp [b2n] at h
    · rfl
  · omega

/-- A positive cover sum exhibits a true covering start. -/
theorem coverSum_cases {inp : Input} {σ : Solution} {k : Key}
    (h : 1 ≤ coverSum inp σ k) :
    (k ∈ y1Keys inp ∧ σ.y1 k = true)
    ∨ (k ∈ y2Keys inp ∧ σ.y2 k = true)
    ∨ ((1 ≤ k.h ∧ unshiftKey 1 k ∈ y2Keys inp) ∧ σ.y2 (unshiftKey 1 k) = true)
    ∨ (k ∈ y3Keys inp ∧ σ.y3 k = true)
    ∨ ((1 ≤ k.h ∧ unshiftKey 1 k ∈ y3Keys inp) ∧ σ.y3 (unshiftKey 1 k) = true)
    ∨ ((2 ≤ k.h ∧ unshiftKey 2 k ∈ y3Keys inp) ∧ σ.y3 (unshiftKey 2 k) = true) := by
  unfold coverSum at h
  have hd : 1 ≤ (if k ∈ y1Keys inp then b2n (σ.y1 k) else 0)
      ∨ 1 ≤ (if k ∈ y2Keys inp then b2n (σ.y2 k) else 0)
      ∨ 1 ≤ (if 1 ≤ k.h ∧ unshiftKey 1 k ∈ y2Keys inp
          then b2n (σ.y2 (unshiftKey 1 k)) else 0)
      ∨ 1 ≤ (if k ∈ y3Keys inp then b2n (σ.y3 k) else 0)
      ∨ 1 ≤ (if 1 ≤ k.h ∧ unshiftKey 1 k ∈ y3Keys inp
          then b2n (σ.y3 (unshiftKey 1 k)) else 0)
      ∨ 1 ≤ (if 2 ≤ k.h ∧ unshiftKey 2 k ∈ y3Keys inp
          then b2n (σ.y3 (unshiftKey 2 k)) else 0) := by
    omega
  rcases hd with hd | hd | hd | hd | hd | hd
  · exact Or.inl (ite_b2n_pos hd)
  · exact Or.inr (Or.inl (ite_b2n_pos hd))
  · exact Or.inr (Or.inr (Or.inl (ite_b2n_pos hd)))
  · exact Or.inr (Or.inr (Or.inr (Or.inl (ite_b2n_pos hd))))
  · exact Or.inr (Or.inr (Or.inr (Or.inr (Or.inl (ite_b2n_pos hd)))))
  · exact Or.inr (Or.inr (Or.inr (Or.inr (Or.inr (ite_b2n_pos hd)))))

/-- Any true occupancy is backed by a start whose teacher is available at
the covered hour. -/
theorem tAvail_of_x_true {inp : Input} {σ : Solution} (hsat : Satisfies inp σ)
    {k : Key} (hk : k ∈ xKeys inp) (hx : σ.x k = true) :
    tAvail inp k.tid k.d k.h = true := by
  have hb := link_b2n hsat.link k hk
  rw [hx] at hb
  have hpos : 1 ≤ coverSum inp σ k := by
    rw [← hb]
    rfl
  rcases coverSum_cases hpos with ⟨hm, -⟩ | ⟨hm, -⟩ | ⟨⟨hh, hm⟩, -⟩
    | ⟨hm, -⟩ | ⟨⟨hh, hm⟩, -⟩ | ⟨⟨hh, hm⟩, -⟩
  · exact tAvail_of_y1 hm
  · exact (tAvail_of_y2 hm).1
  · have := (tAvail_of_y2 hm).2
    simp only [unshiftKey] at this
    have heq : k.h - 1 + 1 = k.h := by omega
    rw [heq] at this
    exact this
  · exact (tAvail_of_y3 hm).1
  · have := (tAvail_of_y3 hm).2.1
    simp only [unshiftKey] at this
    have heq : k.h - 1 + 1 = k.h := by omega
    rw [heq] at this
    exact this
  · have := (tAvail_of_y3 hm).2.2
    simp only [unshiftKey] at this
    have heq : k.h - 2 + 2 = k.h := by omega
    rw [heq] at this
    exact this

/-! ### Per-slot uniqueness of true occupancies -/

theorem allowedLen_le_maxAllowed (sh : SchoolHours) (lvl : Level) (d : Nat) :
    allowedLen sh lvl d ≤ maxAllowed sh d := by
  cases lvl
  · exact le_max_left _ _
  · exact le_max_right _ _

/-- Constraint E forces at most one true occupancy per classroom slot. -/
theorem slot_unique {inp : Input} {σ : Solution} (hsat : Satisfies inp σ) :
    ∀ k1 ∈ xKeys inp, ∀ k2 ∈ xKeys inp, σ.x k1 = true → σ.x k2 = true →
      k1.cid = k2.cid → k1.d = k2.d → k1.h = k2.h → k1 = k2 := by
  intro k1 hk1 k2 hk2 hx1 hx2 hcid hd hh
  by_contra hne
  obtain ⟨s, hs, hcidmem, hsid, c, hc, he, htid, hd5, hha⟩ := mem_xKeys.mp hk1
  have hcm := classroom_by_id_mem hc
  have hk1f : k1 ∈ (xKeys inp).filter (keySlot c.id k1.d k1.h) := by
    rw [List.mem_filter]
    refine ⟨hk1, ?_⟩
    simp [keySlot, beq_iff_eq, hcm.2]
  have hk2f : k2 ∈ (xKeys inp).filter (keySlot c.id k1.d k1.h) := by
    rw [List.mem_filter]
    refine ⟨hk2, ?_⟩
    simp [keySlot, beq_iff_eq, hcm.2, hcid, hd, hh]
  have hE := hsat.classSlot c hcm.1 k1.d hd5 k1.h hha
    (two_le_length_of_mem_ne hk1f hk2f hne)
  have h2 := two_le_bsum hk1f hk2f hne hx1 hx2
  omega

/-- Constraint F forces at most one true occupancy per teacher slot. -/
theorem teacher_unique {inp : Input} {σ : Solution} (hsat : Satisfies inp σ) :
    ∀ k1 ∈ xKeys inp, ∀ k2 ∈ xKeys inp, σ.x k1 = true → σ.x k2 = true →
      k1.tid = k2.tid → k1.d = k2.d → k1.h = k2.h → k1 = k2 := by
  intro k1 hk1 k2 hk2 hx1 hx2 htideq hd hh
  by_contra hne
  obtain ⟨s, hs, hcidmem, hsid, c, hc, he, htid, hd5, hha⟩ := mem_xKeys.mp hk1
  obtain ⟨t, ht, htid2⟩ := exists_teacher_of_eligible htid
  have hmax : k1.h < maxAllowed inp.schoolHours k1.d :=
    lt_of_lt_of_le hha (allowedLen_le_maxAllowed _ _ _)
  have hk1f : k1 ∈ (xKeys inp).filter (keyT t.id k1.d k1.h) := by
    rw [List.mem_filter]
    refine ⟨hk1, ?_⟩
    simp [keyT, beq_iff_eq, htid2]
  have hk2f : k2 ∈ (xKeys inp).filter (keyT t.id k1.d k1.h) := by
    rw [List.mem_filter]
    refine ⟨hk2, ?_⟩
    simp [keyT, beq_iff_eq, htid2, htideq, hd, hh]
  have hF := hsat.teacherSlot t ht k1.d hd5 k1.h hmax
    (two_le_length_of_mem_ne hk1f hk2f hne)
  have h2 := two_le_bsum hk1f hk2f hne hx1 hx2
  omega

/-! ### The extraction fold -/

/-- The slot filter the extraction invariant tracks: a true variable of
classroom `cid` at `(d, h)`. -/
def slotPred (σx : Key → Bool) (cid : String) (d h : Nat) (k : Key) : Bool :=
  σx k && k.cid == cid && k.d == d && k.h == h

/-- A true variable of the (classroom, subject) pair. -/
def csXPred (σx : Key → Bool) (cid sid : String) (k : Key) : Bool :=
  σx k && k.cid == cid && k.sid == sid

theorem xKey_bounds {inp : Input} {k : Key} (hk : k ∈ xKeys inp) :
    ∃ c, classroom_by_id inp k.cid = some c ∧ c ∈ inp.classrooms ∧ c.id = k.cid
      ∧ k.d < 5 ∧ k.h < allowedLen inp.schoolHours c.level k.d := by
  obtain ⟨s, hs, hcid, hsid, c, hc, he, htid, hd, hh⟩ := mem_xKeys.mp hk
  exact ⟨c, hc, (classroom_by_id_mem hc).1, (classroom_by_id_mem hc).2, hd, hh⟩

theorem initSchedule_of_some {inp : Input} {cid : String} {c : Classroom}
    (hc : classroom_by_id inp cid = some c) :
    initSchedule inp cid = emptyGrid inp.schoolHours c.level := by
  unfold initSchedule
  rw [hc]

theorem length_emptyGrid (sh : SchoolHours) (lvl : Level) : (emptyGrid sh lvl).length = 5 := by
  simp [emptyGrid]

theorem getD_emptyGrid (sh : SchoolHours) (lvl : Level) {d : Nat} (hd : d < 5) :
    (emptyGrid sh lvl).getD d []
      = (List.range (allowedLen sh lvl d)).map (fun _ => (none : Option Cell)) := by
  unfold emptyGrid
  rw [List.getD_eq_getElem?_getD, List.getElem?_map, List.getElem?_range hd]
  rfl

theorem getD_set_self {α : Type} (l : List α) (i : Nat) (v d : α) (h : i < l.length) :
    (l.set i v).getD i d = v := by
  rw [List.getD_eq_getElem?_getD, List.getElem?_set]
  simp [h]

theorem getD_set_ne {α : Type} (l : List α) {i j : Nat} (v d : α) (h : i ≠ j) :
    (l.set i v).getD j d = l.getD j d := by
  rw [List.getD_eq_getElem?_getD, List.getElem?_set, if_neg h, ← List.getD_eq_getElem?_getD]

theorem countP_set_of_none {l : List (Option Cell)} {v : Option Cell}
    {p : Option Cell → Bool} (hpnone : p none = false) :
    ∀ {h : Nat}, h < l.length → l.getD h none = none →
    (l.set h v).countP p = l.countP p + b2n (p v) := by
  induction l with
  | nil =>
    intro h hlen
    simp at hlen
  | cons a l ih =>
    intro h hlen hold
    cases h with
    | zero =>
      have ha : a = none := by simpa [List.getD_cons_zero] using hold
      subst ha
      simp only [List.set_cons_zero, List.countP_cons, hpnone, b2n]
      cases hp : p v <;> simp [hp]
    | succ h =>
      rw [List.getD_cons_succ] at hold
      rw [List.length_cons] at hlen
      simp only [List.set_cons_succ, List.countP_cons]
      rw [ih (by omega) hold]
      omega

theorem sum_map_set {g : Grid} (f : List (Option Cell) → Nat) {r : List (Option Cell)} :
    ∀ {d : Nat}, d < g.length →
    ((g.set d r).map f).sum + f (g.getD d []) = (g.map f).sum + f r := by
  induction g with
  | nil =>
    intro d hd
    simp at hd
  | cons a g ih =>
    intro d hd
    cases d with
    | zero =>
      simp only [List.set_cons_zero, List.map_cons, List.sum_cons, List.getD_cons_zero]
      omega
    | succ d =>
      rw [List.length_cons] at hd
      simp only [List.set_cons_succ, List.map_cons, List.sum_cons, List.getD_cons_succ]
      have := ih (d := d) (by omega)
      omega

theorem countSubj_set {g : Grid} {d h : Nat} {cell : Cell} {sid : String}
    (hd : d < g.length) (hh : h < (g.getD d []).length)
    (hempty : (g.getD d []).getD h none = none) :
    countSubj (g.set d ((g.getD d []).set h (some cell))) sid
      = countSubj g sid + b2n (cell.subjectId == sid) := by
  unfold countSubj
  have hs : ((g.set d ((g.getD d []).set h (some cell))).map
        (fun row => row.countP (isSubjCell sid))).sum
        + (g.getD d []).countP (isSubjCell sid)
      = (g.map (fun row => row.countP (isSubjCell sid))).sum
        + ((g.getD d []).set h (some cell)).countP (isSubjCell sid) :=
    sum_map_set (g := g) (fun row => row.countP (isSubjCell sid))
      (r := (g.getD d []).set h (some cell)) hd
  have hrow := countP_set_of_none (l := g.getD d []) (v := some cell)
    (p := isSubjCell sid) rfl hh hempty
  have hcell : isSubjCell sid (some cell) = (cell.subjectId == sid) := rfl
  rw [hcell] at hrow
  omega

theorem find?_concat_of_pred_false {P : List Key} {k : Key} {p : Key → Bool}
    (h : p k = false) : (P ++ [k]).find? p = P.find? p := by
  rw [List.find?_append]
  cases hf : P.find? p
  · simp [List.find?_cons, h]
  · simp

theorem find?_concat_of_pred_true {P : List Key} {k : Key} {p : Key → Bool}
    (hn : P.find? p = none) (h : p k = true) : (P ++ [k]).find? p = some k := by
  rw [List.find?_append, hn]
  simp [List.find?_cons, h]

theorem filter_concat_of_pred_false {P : List Key} {k : Key} {p : Key → Bool}
    (h : p k = false) : (P ++ [k]).filter p = P.filter p := by
  rw [List.filter_append]
  simp [List.filter_cons, h]

theorem filter_concat_of_pred_true {P : List Key} {k : Key} {p : Key → Bool}
    (h : p k = true) : (P ++ [k]).filter p = P.filter p ++ [k] := by
  rw [List.filter_append]
  simp [List.filter_cons, h]

theorem slotPred_self {σx : Key → Bool} {k : Key} (hx : σx k = true) :
    slotPred σx k.cid k.d k.h k = true := by
  unfold slotPred
  rw [hx]
  simp

theorem slotPred_eq_false_of_ne {σx : Key → Bool} {cid : String} {d h : Nat} {k : Key}
    (hne : ¬(k.cid = cid ∧ k.d = d ∧ k.h = h)) : slotPred σx cid d h k = false := by
  unfold slotPred
  cases hb : (σx k && k.cid == cid && k.d == d && k.h == h) with
  | false => rfl
  | true =>
    exfalso
    rw [Bool.and_eq_true, Bool.and_eq_true, Bool.and_eq_true] at hb
    exact hne ⟨beq_iff_eq.mp hb.1.1.2, beq_iff_eq.mp hb.1.2, beq_iff_eq.mp hb.2⟩

theorem csXPred_self {σx : Key → Bool} {k : Key} (hx : σx k = true) :
    csXPred σx k.cid k.sid k = true := by
  unfold csXPred
  rw [hx]
  simp

theorem csXPred_eq_false_of_ne {σx : Key → Bool} {cid sid : String} {k : Key}
    (hne : ¬(k.cid = cid ∧ k.sid = sid)) : csXPred σx cid sid k = false := by
  unfold csXPred
  cases hb : (σx k && k.cid == cid && k.sid == sid) with
  | false => rfl
  | true =>
    exfalso
    rw [Bool.and_eq_true, Bool.and_eq_true] at hb
    exact hne ⟨beq_iff_eq.mp hb.1.2, beq_iff_eq.mp hb.2⟩

/-- One extraction step preserves the fold invariant: shapes are those of
the initial grids, each cell is the first processed true variable of its
slot, and the per-(class, subject) cell count is the number of processed
true variables of the pair. -/
theorem extract_step {inp : Input} {σx : Key → Bool}
    (HU : ∀ k1 ∈ xKeys inp, ∀ k2 ∈ xKeys inp, σx k1 = true → σx k2 = true →
      k1.cid = k2.cid → k1.d = k2.d → k1.h = k2.h → k1 = k2)
    {P : List Key} {k : Key} (hk : k ∈ xKeys inp) (hkP : k ∉ P)
    (hP : ∀ p ∈ P, p ∈ xKeys inp)
    {sch : Schedule} {n : Nat}
    (inv1 : ∀ cid, (sch cid).length = (initSchedule inp cid).length)
    (inv2 : ∀ cid d, ((sch cid).getD d []).length = ((initSchedule inp cid).getD d []).length)
    (inv3 : ∀ cid d h, cellAt sch cid d h = ((P.find? (slotPred σx cid d h)).map (mkCell inp)))
    (inv4 : ∀ cid sid, countSubj (sch cid) sid = (P.filter (csXPred σx cid sid)).length) :
    (∀ cid, ((placeKey inp σx (sch, n) k).1 cid).length = (initSchedule inp cid).length)
    ∧ (∀ cid d, (((placeKey inp σx (sch, n) k).1 cid).getD d []).length
        = ((initSchedule inp cid).getD d []).length)
    ∧ (∀ cid d h, cellAt (placeKey inp σx (sch, n) k).1 cid d h
        = (((P ++ [k]).find? (slotPred σx cid d h)).map (mkCell inp)))
    ∧ (∀ cid sid, countSubj ((placeKey inp σx (sch, n) k).1 cid) sid
        = ((P ++ [k]).filter (csXPred σx cid sid)).length) := by
  cases hx : σx k with
  | false =>
    have hresult : placeKey inp σx (sch, n) k = (sch, n) := by
      unfold placeKey
      rw [if_neg (by simp [hx])]
    rw [hresult]
    have hsp : ∀ cid d h, slotPred σx cid d h k = false := by
      intro cid d h
      unfold slotPred
      rw [hx]
      rfl
    have hcp : ∀ cid sid, csXPred σx cid sid k = false := by
      intro cid sid
      unfold csXPred
      rw [hx]
      rfl
    refine ⟨inv1, inv2, ?_, ?_⟩
    · intro cid d h
      rw [find?_concat_of_pred_false (hsp cid d h)]
      exact inv3 cid d h
    · intro cid sid
      rw [filter_concat_of_pred_false (hcp cid sid)]
      exact inv4 cid sid
  | true =>
    obtain ⟨c, hc, hcmem, hcid, hd5, hha⟩ := xKey_bounds hk
    have hlen1 : (sch k.cid).length = 5 := by
      rw [inv1 k.cid, initSchedule_of_some hc, length_emptyGrid]
    have hrowlen : ((sch k.cid).getD k.d []).length
        = allowedLen inp.schoolHours c.level k.d := by
      rw [inv2 k.cid k.d, initSchedule_of_some hc, getD_emptyGrid _ _ hd5]
      simp
    have hfind : P.find? (slotPred σx k.cid k.d k.h) = none := by
      cases hf : P.find? (slotPred σx k.cid k.d k.h) with
      | none => rfl
      | some k2 =>
        exfalso
        have hk2P := List.mem_of_find?_eq_some hf
        have hpred := List.find?_some hf
        unfold slotPred at hpred
        rw [Bool.and_eq_true, Bool.and_eq_true, Bool.and_eq_true] at hpred
        obtain ⟨⟨⟨hx2, hc2⟩, hd2⟩, hh2⟩ := hpred
        rw [beq_iff_eq] at hc2
        rw [beq_iff_eq] at hd2
        rw [beq_iff_eq] at hh2
        have := HU k2 (hP k2 hk2P) k hk hx2 hx hc2 hd2 hh2
        subst this
        exact hkP hk2P
    have hempty : ((sch k.cid).getD k.d []).getD k.h none = none := by
      have h3 := inv3 k.cid k.d k.h
      unfold cellAt at h3
      rw [hfind] at h3
      simpa using h3
    have hcond : k.d < (sch k.cid).length
        ∧ k.h < ((sch k.cid).getD k.d []).length
        ∧ ((sch k.cid).getD k.d []).getD k.h none = none :=
      ⟨by omega, by omega, hempty⟩
    have hresult : placeKey inp σx (sch, n) k
        = (fun cid2 => if cid2 = k.cid
            then (sch k.cid).set k.d (((sch k.cid).getD k.d []).set k.h (some (mkCell inp k)))
            else sch cid2,
           n + 1) := by
      show (if σx k = true then
          if k.d < (sch k.cid).length ∧ k.h < ((sch k.cid).getD k.d []).length
              ∧ ((sch k.cid).getD k.d []).getD k.h none = none then
            (fun cid2 => if cid2 = k.cid
              then (sch k.cid).set k.d
                (((sch k.cid).getD k.d []).set k.h (some (mkCell inp k)))
              else sch cid2,
             n + 1)
          else (sch, n)
        else (sch, n)) = _
      rw [if_pos hx, if_pos hcond]
    refine ⟨?_, ?_, ?_, ?_⟩
    · intro cid
      simp only [hresult]
      by_cases hcc : cid = k.cid
      · subst hcc
        rw [if_pos rfl, List.length_set]
        exact inv1 k.cid
      · rw [if_neg hcc]
        exact inv1 cid
    · intro cid d
      simp only [hresult]
      by_cases hcc : cid = k.cid
      · subst hcc
        rw [if_pos rfl]
        by_cases hdd : d = k.d
        · subst hdd
          rw [getD_set_self _ _ _ _ (by omega), List.length_set]
          exact inv2 k.cid k.d
        · rw [getD_set_ne _ _ _ (fun he => hdd he.symm)]
          exact inv2 k.cid d
      · rw [if_neg hcc]
        exact inv2 cid d
    · intro cid d h
      unfold cellAt
      simp only [hresult]
      by_cases hcc : cid = k.cid
      · subst hcc
        rw [if_pos rfl]
        by_cases hdd : d = k.d
        · subst hdd
          rw [getD_set_self _ _ _ _ (by omega)]
          by_cases hhh : h = k.h
          · subst hhh
            rw [getD_set_self _ _ _ _ (by omega)]
            have hpk : slotPred σx k.cid k.d k.h k = true := slotPred_self hx
            rw [find?_concat_of_pred_true hfind hpk]
            rfl
          · rw [getD_set_ne _ _ _ (fun he => hhh he.symm)]
            rw [find?_concat_of_pred_false
              (slotPred_eq_false_of_ne (fun hq => hhh hq.2.2.symm))]
            have h3 := inv3 k.cid k.d h
            unfold cellAt at h3
            exact h3
        · rw [getD_set_ne _ _ _ (fun he => hdd he.symm)]
          rw [find?_concat_of_pred_false
            (slotPred_eq_false_of_ne (fun hq => hdd hq.2.1.symm))]
          have h3 := inv3 k.cid d h
          unfold cellAt at h3
          exact h3
      · rw [if_neg hcc]
        rw [find?_concat_of_pred_false
          (slotPred_eq_false_of_ne (fun hq => hcc hq.1.symm))]
        have h3 := inv3 cid d h
        unfold cellAt at h3
        exact h3
    · intro cid sid
      simp only [hresult]
      by_cases hcc : cid = k.cid
      · subst hcc
        rw [if_pos rfl]
        by_cases hss : sid = k.sid
        · subst hss
          rw [countSubj_set (by omega) (by omega) hempty]
          rw [filter_concat_of_pred_true (csXPred_self hx)]
          rw [List.length_append]
          have hb : ((mkCell inp k).subjectId == k.sid) = true := by
            simp [mkCell]
          rw [hb, inv4 k.cid k.sid]
          rfl
        · rw [countSubj_set (by omega) (by omega) hempty]
          rw [filter_concat_of_pred_false
            (csXPred_eq_false_of_ne (fun hq => hss hq.2.symm))]
          have hb : ((mkCell inp k).subjectId == sid) = false := by
            rw [beq_eq_false_iff_ne]
            exact fun he => hss he.symm
          rw [hb, inv4 k.cid sid]
          rfl
      · rw [if_neg hcc]
        rw [filter_concat_of_pred_false
          (csXPred_eq_false_of_ne (fun hq => hcc hq.1.symm))]
        exact inv4 cid sid

theorem initSchedule_of_none {inp : Input} {cid : String}
    (hc : classroom_by_id inp cid = none) : initSchedule inp cid = [] := by
  unfold initSchedule
  rw [hc]

theorem countSubj_initSchedule (inp : Input) (cid sid : String) :
    countSubj (initSchedule inp cid) sid = 0 := by
  cases hc : classroom_by_id inp cid with
  | none =>
    rw [initSchedule_of_none hc]
    rfl
  | some c =>
    rw [initSchedule_of_some hc]
    unfold countSubj emptyGrid
    rw [List.map_map]
    apply List.sum_eq_zero
    intro x hx
    rw [List.mem_map] at hx
    obtain ⟨d, hd, rfl⟩ := hx
    show ((List.range (allowedLen inp.schoolHours c.level d)).map
      (fun _ => (none : Option Cell))).countP (isSubjCell sid) = 0
    rw [List.countP_eq_zero]
    intro a ha
    rw [List.mem_map] at ha
    obtain ⟨h2, hh2, rfl⟩ := ha
    simp [isSubjCell]

theorem extract_fold {inp : Input} {σx : Key → Bool}
    (HU : ∀ k1 ∈ xKeys inp, ∀ k2 ∈ xKeys inp, σx k1 = true → σx k2 = true →
      k1.cid = k2.cid → k1.d = k2.d → k1.h = k2.h → k1 = k2) :
    ∀ (L P : List Key), xKeys inp = P ++ L →
    ∀ (sch : Schedule) (n : Nat),
    (∀ cid, (sch cid).length = (initSchedule inp cid).length) →
    (∀ cid d, ((sch cid).getD d []).length = ((initSchedule inp cid).getD d []).length) →
    (∀ cid d h, cellAt sch cid d h = ((P.find? (slotPred σx cid d h)).map (mkCell inp))) →
    (∀ cid sid, countSubj (sch cid) sid = (P.filter (csXPred σx cid sid)).length) →
    (∀ cid d h, cellAt (L.foldl (placeKey inp σx) (sch, n)).1 cid d h
        = (((P ++ L).find? (slotPred σx cid d h)).map (mkCell inp)))
    ∧ (∀ cid sid, countSubj ((L.foldl (placeKey inp σx) (sch, n)).1 cid) sid
        = ((P ++ L).filter (csXPred σx cid sid)).length) := by
  intro L
  induction L with
  | nil =>
    intro P heq sch n h1 h2 h3 h4
    simpa using ⟨h3, h4⟩
  | cons k L ih =>
    intro P heq sch n h1 h2 h3 h4
    have hnd := nodup_xKeys inp
    rw [heq, List.nodup_append] at hnd
    have hk : k ∈ xKeys inp := by
      rw [heq]
      simp
    have hkP : k ∉ P := fun hmem => hnd.2.2 hmem (List.mem_cons_self k L)
    have hP : ∀ p ∈ P, p ∈ xKeys inp := by
      intro p hp
      rw [heq]
      exact List.mem_append.mpr (Or.inl hp)
    have hstep := extract_step HU hk hkP hP h1 h2 h3 h4 (n := n)
    rw [List.foldl_cons]
    have heq2 : xKeys inp = (P ++ [k]) ++ L := by
      rw [heq]
      simp
    have hres := ih (P ++ [k]) heq2 (placeKey inp σx (sch, n) k).1
      (placeKey inp σx (sch, n) k).2
      hstep.1 hstep.2.1 hstep.2.2.1 hstep.2.2.2
    constructor
    · intro cid d h
      have := (hres.1 cid d h)
      simpa [List.append_assoc] using this
    · intro cid sid
      have := (hres.2 cid sid)
      simpa [List.append_assoc] using this

/-- The extracted schedule, characterized: provided at most one variable is
true per classroom slot, each cell holds the unique true variable of its
slot and the per-(class, subject) cell count equals the number of true
variables of the pair. -/
theorem extract_spec {inp : Input} {σx : Key → Bool}
    (HU : ∀ k1 ∈ xKeys inp, ∀ k2 ∈ xKeys inp, σx k1 = true → σx k2 = true →
      k1.cid = k2.cid → k1.d = k2.d → k1.h = k2.h → k1 = k2) :
    (∀ cid d h, cellAt (extract inp σx).1 cid d h
      = (((xKeys inp).find? (slotPred σx cid d h)).map (mkCell inp)))
    ∧ (∀ cid sid, countSubj ((extract inp σx).1 cid) sid
      = ((xKeys inp).filter (csXPred σx cid sid)).length) := by
  unfold extract
  have hbase3 : ∀ cid d h, cellAt (initSchedule inp) cid d h
      = ((([] : List Key).find? (slotPred σx cid d h)).map (mkCell inp)) := by
    intro cid d h
    rw [cellAt_initSchedule]
    rfl
  have hbase4 : ∀ cid sid, countSubj (initSchedule inp cid) sid
      = ((([] : List Key)).filter (csXPred σx cid sid)).length := by
    intro cid sid
    rw [countSubj_initSchedule]
    rfl
  have h := extract_fold HU (xKeys inp) [] (by simp) (initSchedule inp) 0
    (fun _ => rfl) (fun _ _ => rfl) hbase3 hbase4
  simpa using h

/-- Every non-null cell of the returned schedule is the unique true
occupancy variable of its slot. -/
theorem cell_key {inp : Input} {σ : Solution} {status : CpStatus}
    (hsat : Satisfies inp σ) {cid : String} {d h : Nat} {cell : Cell}
    (hcell : cellAt (solve_cp_sat inp status σ).schedule cid d h = some cell) :
    ∃ k ∈ xKeys inp, σ.x k = true ∧ k.cid = cid ∧ k.d = d ∧ k.h = h
      ∧ cell = mkCell inp k := by
  by_cases hst : status = CpStatus.OPTIMAL ∨ status = CpStatus.FEASIBLE
  · have hsch : (solve_cp_sat inp status σ).schedule = (extract inp σ.x).1 := by
      unfold solve_cp_sat
      rw [if_pos hst]
    rw [hsch, (extract_spec (slot_unique hsat)).1 cid d h] at hcell
    cases hf : (xKeys inp).find? (slotPred σ.x cid d h) with
    | none =>
      rw [hf] at hcell
      cases hcell
    | some k =>
      rw [hf, Option.map_some'] at hcell
      injection hcell with hcell
      have hpred := List.find?_some hf
      unfold slotPred at hpred
      rw [Bool.and_eq_true, Bool.and_eq_true, Bool.and_eq_true] at hpred
      obtain ⟨⟨⟨hx, hc1⟩, hd1⟩, hh1⟩ := hpred
      exact ⟨k, List.mem_of_find?_eq_some hf, hx, beq_iff_eq.mp hc1, beq_iff_eq.mp hd1,
        beq_iff_eq.mp hh1, hcell.symm⟩
  · have hsch : (solve_cp_sat inp status σ).schedule = initSchedule inp := by
      unfold solve_cp_sat
      rw [if_neg hst]
    rw [hsch, cellAt_initSchedule] at hcell
    cases hcell

/-! ### C4: availability honored -/

/-- C4: any cell of a returned schedule names a teacher who is available at
that day and hour (block-start variables exist only where the teacher is
available over the whole block, and every occupancy equals the sum of its
covering starts). -/
theorem c4_availability (inp : Input) (σ : Solution) (status : CpStatus)
    (hsat : Satisfies inp σ) :
    ∀ cid d h cell, cellAt (solve_cp_sat inp status σ).schedule cid d h = some cell →
      tAvail inp cell.teacherId d h = true := by
  intro cid d h cell hcell
  obtain ⟨k, hk, hx, hcid, hd, hh, rfl⟩ := cell_key hsat hcell
  have hav := tAvail_of_x_true hsat hk hx
  show tAvail inp (mkCell inp k).teacherId d h = true
  have ht : (mkCell inp k).teacherId = k.tid := rfl
  rw [ht, ← hd, ← hh]
  exact hav

theorem satisfies_inputA : Satisfies inputA solA :=
  satisfies_of_all (by decide)

theorem c4_availability_witness : tAvail inputA "t1" 0 0 = true :=
  c4_availability inputA solA CpStatus.FEASIBLE satisfies_inputA "c1" 0 0
    ⟨"s1", "t1", none, "c1"⟩ (by decide)

/-! ### C2: slot and teacher exclusivity -/

/-- A second teacher with the `Fiz` branch, for a two-classroom instance. -/
def teacherC : Teacher := ⟨"t2", ["Fiz"], [[true]], true, false⟩

/-- A second middle-school classroom. -/
def classroomC : Classroom := ⟨"c2", Level.Ortaokul⟩

/-- Two classrooms, two teachers, one lesson each in the same slot. -/
def inputC : Input :=
  ⟨[teacherA, teacherC], [classroomA, classroomC],
   [subjectMat, ⟨"s2", "Fiz", 1, 0, 0, none, none, ["c2"], []⟩],
   [], hoursA, none, {}, false⟩

/-- The solution of `inputC`: both lessons on Monday hour 0. -/
def solC : Solution :=
  { x := fun k => decide (k = ⟨"c1", "s1", "t1", 0, 0⟩ ∨ k = ⟨"c2", "s2", "t2", 0, 0⟩)
    y1 := fun k => decide (k = ⟨"c1", "s1", "t1", 0, 0⟩ ∨ k = ⟨"c2", "s2", "t2", 0, 0⟩)
    y2 := fun _ => false
    y3 := fun _ => false
    socc := fun cid sid d h =>
      decide ((cid = "c1" ∧ sid = "s1" ∧ d = 0 ∧ h = 0)
        ∨ (cid = "c2" ∧ sid = "s2" ∧ d = 0 ∧ h = 0))
    o := fun tid d h => decide ((tid = "t1" ∨ tid = "t2") ∧ d = 0 ∧ h = 0)
    gap := fun _ _ _ => false
    heavy := fun _ _ => false
    gapPresent := fun _ _ => false
    noGapHeavy := fun _ _ => false }

theorem satisfies_inputC : Satisfies inputC solC :=
  satisfies_of_all (by decide)

/-- C2: in every returned solution at most one lesson occupies a classroom
slot (distinct true occupancy variables of a slot coincide), and no teacher
is named by two cells of the same (day, hour) anywhere in the schedule. -/
theorem c2_exclusivity (inp : Input) (σ : Solution) (status : CpStatus)
    (hsat : Satisfies inp σ) :
    (∀ k1 ∈ xKeys inp, ∀ k2 ∈ xKeys inp, σ.x k1 = true → σ.x k2 = true →
      k1.cid = k2.cid → k1.d = k2.d → k1.h = k2.h → k1 = k2)
    ∧ (∀ cid1 cid2 d h c1 c2, cid1 ≠ cid2 →
        cellAt (solve_cp_sat inp status σ).schedule cid1 d h = some c1 →
        cellAt (solve_cp_sat inp status σ).schedule cid2 d h = some c2 →
        c1.teacherId ≠ c2.teacherId) := by
  refine ⟨slot_unique hsat, ?_⟩
  intro cid1 cid2 d h c1 c2 hne h1 h2 heqt
  obtain ⟨k1, hk1, hx1, hc1, hd1, hh1, rfl⟩ := cell_key hsat h1
  obtain ⟨k2, hk2, hx2, hc2, hd2, hh2, rfl⟩ := cell_key hsat h2
  have htid : k1.tid = k2.tid := heqt
  have hkeq := teacher_unique hsat k1 hk1 k2 hk2 hx1 hx2 htid
    (by rw [hd1, hd2]) (by rw [hh1, hh2])
  apply hne
  rw [← hc1, ← hc2, hkeq]

theorem c2_exclusivity_witness :
    (⟨"s1", "t1", none, "c1"⟩ : Cell).teacherId
      ≠ (⟨"s2", "t2", none, "c2"⟩ : Cell).teacherId :=
  (c2_exclusivity inputC solC CpStatus.FEASIBLE satisfies_inputC).2 "c1" "c2" 0 0
    ⟨"s1", "t1", none, "c1"⟩ ⟨"s2", "t2", none, "c2"⟩
    (by decide) (by decide) (by decide)

/-! ### C3: fixed pins -/

theorem exists_true_of_bsum_pos {l : List Key} {f : Key → Bool} (h : 1 ≤ bsum l f) :
    ∃ a ∈ l, f a = true := by
  rw [bsum_eq_length_filter] at h
  cases hl : l.filter f with
  | nil =>
    rw [hl] at h
    simp at h
  | cons a t =>
    have ha : a ∈ l.filter f := by
      rw [hl]
      exact List.mem_cons_self a t
    rw [List.mem_filter] at ha
    exact ⟨a, ha.1, ha.2⟩

/-- An empty catalog together with one fixed assignment whose tuple has no
occupancy variables. -/
def inputE : Input := ⟨[], [classroomA], [], [⟨"c1", "sX", 0, 0⟩], hoursA, none, {}, false⟩

/-- C3 counterexample: `inputE` carries a fixed pin whose tuple has no
`x`-variables; the constructed model is nonetheless satisfiable (so the
solver does not report infeasibility), and the pinned slot comes back
empty in a FEASIBLE result: the pin is silently dropped, contradicting the
claim that the model would be infeasible. -/
theorem c3_fixed_pin_counterexample :
    Satisfies inputE solZero
    ∧ inputE.fixed = [⟨"c1", "sX", 0, 0⟩]
    ∧ (xKeys inputE).filter (keyCSDH "c1" "sX" 0 0) = []
    ∧ cellAt (solve_cp_sat inputE CpStatus.FEASIBLE solZero).schedule "c1" 0 0 = none :=
  ⟨satisfies_of_all (by decide), by decide, by decide, by decide⟩

/-- C3 amended: for a fixed assignment whose tuple has at least one
occupancy variable, the builder posts `Σ_t x = 1`, so every OPTIMAL or
FEASIBLE solution places the pinned subject at the pinned slot; when no
occupancy variable exists for the tuple, no constraint is posted and the
pin is silently dropped (the model can stay feasible, as the
counterexample shows). -/
theorem c3_fixed_pin_amended (inp : Input) (σ : Solution) (status : CpStatus)
    (hsat : Satisfies inp σ)
    (hst : status = CpStatus.OPTIMAL ∨ status = CpStatus.FEASIBLE) :
    ∀ fa ∈ inp.fixed,
      (xKeys inp).filter (keyCSDH fa.classroomId fa.subjectId fa.dayIndex fa.hourIndex) ≠ [] →
      ∃ cell, cellAt (solve_cp_sat inp status σ).schedule
          fa.classroomId fa.dayIndex fa.hourIndex = some cell
        ∧ cell.subjectId = fa.subjectId := by
  intro fa hfa hfilter
  have hfc := hsat.fixedPins fa hfa hfilter
  have hpos : 1 ≤ bsum ((xKeys inp).filter
      (keyCSDH fa.classroomId fa.subjectId fa.dayIndex fa.hourIndex)) σ.x := by
    omega
  obtain ⟨k, hkf, hxk⟩ := exists_true_of_bsum_pos hpos
  rw [List.mem_filter] at hkf
  obtain ⟨hkmem, hkp⟩ := hkf
  unfold keyCSDH at hkp
  rw [Bool.and_eq_true, Bool.and_eq_true, Bool.and_eq_true] at hkp
  obtain ⟨⟨⟨hcq, hsq⟩, hdq⟩, hhq⟩ := hkp
  have hsch : (solve_cp_sat inp status σ).schedule = (extract inp σ.x).1 := by
    unfold solve_cp_sat
    rw [if_pos hst]
  have hcellAt := (extract_spec (slot_unique hsat)).1 fa.classroomId fa.dayIndex fa.hourIndex
  cases hf : (xKeys inp).find? (slotPred σ.x fa.classroomId fa.dayIndex fa.hourIndex) with
  | none =>
    exfalso
    apply List.find?_eq_none.mp hf k hkmem
    unfold slotPred
    rw [hxk]
    simp [beq_iff_eq, beq_iff_eq.mp hcq, beq_iff_eq.mp hdq, beq_iff_eq.mp hhq]
  | some k0 =>
    rw [hf, Option.map_some'] at hcellAt
    refine ⟨mkCell inp k0, by rw [hsch]; exact hcellAt, ?_⟩
    have hpred0 := List.find?_some hf
    unfold slotPred at hpred0
    rw [Bool.and_eq_true, Bool.and_eq_true, Bool.and_eq_true] at hpred0
    obtain ⟨⟨⟨hx0, hc0⟩, hd0⟩, hh0⟩ := hpred0
    have hk0mem := List.mem_of_find?_eq_some hf
    have hk0k : k0 = k := slot_unique hsat k0 hk0mem k hkmem hx0 hxk
      (by rw [beq_iff_eq.mp hc0, beq_iff_eq.mp hcq])
      (by rw [beq_iff_eq.mp hd0, beq_iff_eq.mp hdq])
      (by rw [beq_iff_eq.mp hh0, beq_iff_eq.mp hhq])
    show (mkCell inp k0).subjectId = fa.subjectId
    have hms : (mkCell inp k0).subjectId = k0.sid := rfl
    rw [hms, hk0k]
    exact beq_iff_eq.mp hsq

/-- `inputA` plus a fixed pin at the schedulable slot. -/
def inputH : Input :=
  ⟨[teacherA], [classroomA], [subjectMat, subjectFiz], [⟨"c1", "s1", 0, 0⟩],
   hoursA, none, {}, false⟩

theorem satisfies_inputH : Satisfies inputH solA :=
  satisfies_of_all (by decide)

theorem c3_fixed_pin_amended_witness :
    ∃ cell, cellAt (solve_cp_sat inputH CpStatus.FEASIBLE solA).schedule "c1" 0 0
        = some cell ∧ cell.subjectId = "s1" :=
  c3_fixed_pin_amended inputH solA CpStatus.FEASIBLE satisfies_inputH (Or.inr rfl)
    ⟨"c1", "s1", 0, 0⟩ (by decide) (by decide)

/-! ### C6: no divisibility validation of blockHours / tripleBlockHours -/

/-- A subject with `blockHours = 3`, not divisible by 2. -/
def subjectF : Subject := ⟨"s1", "Mat", 5, 3, 0, none, none, ["c1"], []⟩

/-- A five-hour day and a fully available teacher for `subjectF`. -/
def inputF : Input :=
  ⟨[⟨"t1", [], [[true, true, true, true, true]], true, false⟩], [classroomA],
   [subjectF], [], ⟨[5, 0, 0, 0, 0], [0, 0, 0, 0, 0]⟩, none, {}, false⟩

/-- C6 counterexample: for an input whose `blockHours` is not divisible
by 2, `solve_cp_sat` does not surface any validation failure: decision
variables are built and the exact-block-count constraint uses the silently
truncated count `3 // 2 = 1`. -/
theorem c6_divisibility_counterexample :
    subjectF.blockHours = 3 ∧ ¬(2 ∣ subjectF.blockHours)
    ∧ block2Of subjectF = 1 ∧ xKeys inputF ≠ [] :=
  ⟨rfl, by decide, rfl, by decide⟩

/-- A subject with its block totals replaced. -/
def setBlocks (s : Subject) (b tb : Int) : Subject :=
  { s with blockHours := b, tripleBlockHours := tb }

/-- An input with every subject's block totals replaced. -/
def setBlocksAll (inp : Input) (b tb : Int) : Input :=
  { inp with subjects := inp.subjects.map (fun s => setBlocks s b tb) }

/-- C6 amended: `solve_cp_sat` performs no divisibility validation.
Variable construction ignores `blockHours` and `tripleBlockHours`
entirely, and the block counts used by the exact-block-count constraints
are the truncating divisions `max(0, blockHours) / 2` and
`max(0, tripleBlockHours) / 3`; solving simply proceeds with them. -/
theorem c6_divisibility_amended (inp : Input) (b tb : Int) (s : Subject) :
    xKeys (setBlocksAll inp b tb) = xKeys inp
    ∧ block2Of (setBlocks s b tb) = b.toNat / 2
    ∧ block3Of (setBlocks s b tb) = tb.toNat / 3 := by
  refine ⟨?_, rfl, rfl⟩
  show dedupK _ = dedupK _
  congr 1
  rw [show (setBlocksAll inp b tb).subjects = inp.subjects.map (fun s => setBlocks s b tb)
    from rfl]
  rw [List.flatMap_map]
  rfl

/-! ### C9: the skip note for pairs with no eligible teacher -/

theorem skipBlock_eq_some {inp : Input} {s : Subject} {cid : String} {c : Classroom}
    (hc : classroom_by_id inp cid = some c) :
    skipBlock inp s cid =
      (if eligible_teachers inp c s = [] then [skipNote s cid] else []) := by
  unfold skipBlock
  rw [hc]

theorem notes_solve_cp_sat (inp : Input) (status : CpStatus) (σ : Solution) :
    (solve_cp_sat inp status σ).notes
      = skipNotes inp ++ ["status=" ++ statusName status] := by
  unfold solve_cp_sat
  split
  · rfl
  · rfl

theorem subject_id_inj {inp : Input} (HS : (inp.subjects.map Subject.id).Nodup)
    {s1 s2 : Subject} (h1 : s1 ∈ inp.subjects) (h2 : s2 ∈ inp.subjects)
    (he : s1.id = s2.id) : s1 = s2 :=
  List.inj_on_of_nodup_map HS h1 h2 he

/-- C9 counterexample: the note the source emits for a skipped pair is the
Turkish `"Atlandı: {name} / {cid} (uygun öğretmen yok)"`, not the claimed
English `"Skipped: {name} / {cid} (no eligible teacher)"`. -/
theorem c9_skip_note_counterexample :
    "Skipped: Fiz / c1 (no eligible teacher)"
        ∉ (solve_cp_sat inputA CpStatus.FEASIBLE solA).notes
    ∧ "Atlandı: Fiz / c1 (uygun öğretmen yok)"
        ∈ (solve_cp_sat inputA CpStatus.FEASIBLE solA).notes := by
  constructor
  · decide
  · decide

/-- C9 amended: for a (classroom, subject) pair with empty eligibility the
builder appends exactly the string
`"Atlandı: {subject.name} / {classroom.id} (uygun öğretmen yok)"` to the
notes (which every returned result carries), creates no variables at all
for the pair, and continues. -/
theorem c9_skip_note_amended (inp : Input) (s : Subject) (cid : String) (c : Classroom)
    (HS : (inp.subjects.map Subject.id).Nodup)
    (hs : s ∈ inp.subjects) (hcid : cid ∈ s.assignedClassIds)
    (hc : classroom_by_id inp cid = some c)
    (he : eligible_teachers inp c s = []) :
    skipNote s cid ∈ skipNotes inp
    ∧ (∀ status σ, skipNote s cid ∈ (solve_cp_sat inp status σ).notes)
    ∧ (∀ k ∈ xKeys inp, ¬(k.cid = cid ∧ k.sid = s.id))
    ∧ (∀ k ∈ y1Keys inp, ¬(k.cid = cid ∧ k.sid = s.id))
    ∧ (∀ k ∈ y2Keys inp, ¬(k.cid = cid ∧ k.sid = s.id))
    ∧ (∀ k ∈ y3Keys inp, ¬(k.cid = cid ∧ k.sid = s.id)) := by
  have hnote : skipNote s cid ∈ skipNotes inp := by
    unfold skipNotes
    rw [List.mem_flatMap]
    refine ⟨s, hs, ?_⟩
    rw [List.mem_flatMap]
    refine ⟨cid, hcid, ?_⟩
    rw [skipBlock_eq_some hc, if_pos he]
    exact List.mem_singleton.mpr rfl
  have hnox : ∀ k ∈ xKeys inp, ¬(k.cid = cid ∧ k.sid = s.id) := by
    rintro k hk ⟨hkc, hks⟩
    obtain ⟨s2, hs2, hcid2, hsid2, c2, hc2, he2, -, -, -⟩ := mem_xKeys.mp hk
    have hseq : s2 = s := subject_id_inj HS hs2 hs (by rw [← hsid2, hks])
    subst hseq
    rw [hkc, hc] at hc2
    injection hc2 with hc2
    subst hc2
    exact he2 he
  refine ⟨hnote, ?_, hnox, ?_, ?_, ?_⟩
  · intro status σ
    rw [notes_solve_cp_sat]
    exact List.mem_append.mpr (Or.inl hnote)
  · intro k hk
    exact hnox k (xKeys_of_y1 hk)
  · intro k hk
    exact hnox k (xKeys_of_y2 hk).1
  · intro k hk
    exact hnox k (xKeys_of_y3 hk).1

theorem c9_skip_note_amended_witness :
    skipNote subjectFiz "c1" ∈ skipNotes inputA
    ∧ skipNote subjectFiz "c1" ∈ (solve_cp_sat inputA CpStatus.FEASIBLE solA).notes := by
  have h := c9_skip_note_amended inputA subjectFiz "c1" classroomA
    (by decide) (by decide) (by decide) (by decide) (by decide)
  exact ⟨h.1, h.2.1 CpStatus.FEASIBLE solA⟩

/-! ### C1: weekly-hours counting -/

theorem unshiftKey_zero (k : Key) : unshiftKey 0 k = k := by
  cases k
  simp [unshiftKey]

theorem shiftKey_zero (k : Key) : shiftKey 0 k = k := by
  cases k
  simp [shiftKey]

theorem keyCS_unshiftKey (cid sid : String) (j : Nat) (k : Key) :
    keyCS cid sid (unshiftKey j k) = keyCS cid sid k := rfl

theorem keyCS_shiftKey (cid sid : String) (j : Nat) (k : Key) :
    keyCS cid sid (shiftKey j k) = keyCS cid sid k := rfl

/-- Reindexing a guarded sum over covering keys by the hour shift `j`:
summing `f` at `h - j` over all keys whose unshift lies in `S` equals
summing `f` over `S`, provided every `S`-key shifted by `j` is in the
ambient set. -/
theorem sum_unshiftKey (f : Key → Nat) (j : Nat) (A S : Finset Key)
    (hS : ∀ kk ∈ S, shiftKey j kk ∈ A) :
    (∑ k ∈ A, if j ≤ k.h ∧ unshiftKey j k ∈ S then f (unshiftKey j k) else 0)
    = ∑ kk ∈ S, f kk := by
  rw [← Finset.sum_filter (fun k => j ≤ k.h ∧ unshiftKey j k ∈ S)
    (fun k => f (unshiftKey j k))]
  apply Finset.sum_nbij' (unshiftKey j) (shiftKey j)
  · intro a ha
    rw [Finset.mem_filter] at ha
    exact ha.2.2
  · intro a ha
    rw [Finset.mem_filter]
    refine ⟨hS a ha, ?_, ?_⟩
    · show j ≤ (shiftKey j a).h
      simp [shiftKey]
    · have heq : unshiftKey j (shiftKey j a) = a := by
        cases a
        simp [shiftKey, unshiftKey]
      rw [heq]
      exact ha
  · intro a ha
    rw [Finset.mem_filter] at ha
    obtain ⟨-, hj, -⟩ := ha
    cases a
    simp only [shiftKey, unshiftKey]
    simp only [Key.h] at hj
    congr 1
    omega
  · intro a ha
    cases a
    simp [shiftKey, unshiftKey]
  · intro a ha
    rfl

/-- The cell count of a (class, subject) pair, as the boolean sum of its
occupancy variables. -/
theorem count_as_bsum (inp : Input) (σx : Key → Bool) (cid sid : String) :
    ((xKeys inp).filter (csXPred σx cid sid)).length
      = bsum ((xKeys inp).filter (keyCS cid sid)) σx := by
  rw [bsum_eq_length_filter, List.filter_filter]
  congr 1
  apply List.filter_congr
  intro a ha
  unfold csXPred keyCS
  cases σx a <;> cases (a.cid == cid) <;> cases (a.sid == sid) <;> rfl

theorem nodup_y1Keys (inp : Input) : (y1Keys inp).Nodup := nodup_dedupK _

theorem nodup_y2Keys (inp : Input) : (y2Keys inp).Nodup := nodup_dedupK _

theorem nodup_y3Keys (inp : Input) : (y3Keys inp).Nodup := nodup_dedupK _

/-- One cover-term family summed over the pair's occupancy keys equals the
boolean sum over the pair's start keys. -/
theorem sum_cover_term {inp : Input} (σy : Key → Bool) (j : Nat)
    (ykeys : List Key) (hynd : ykeys.Nodup) (cid sid : String)
    (hclose : ∀ kk ∈ ykeys.filter (keyCS cid sid),
      shiftKey j kk ∈ (xKeys inp).filter (keyCS cid sid)) :
    (∑ k ∈ ((xKeys inp).filter (keyCS cid sid)).toFinset,
      if j ≤ k.h ∧ unshiftKey j k ∈ ykeys then b2n (σy (unshiftKey j k)) else 0)
    = bsum (ykeys.filter (keyCS cid sid)) σy := by
  have hstep : ∀ k ∈ ((xKeys inp).filter (keyCS cid sid)).toFinset,
      (if j ≤ k.h ∧ unshiftKey j k ∈ ykeys then b2n (σy (unshiftKey j k)) else 0)
      = (if j ≤ k.h ∧ unshiftKey j k ∈ (ykeys.filter (keyCS cid sid)).toFinset
          then b2n (σy (unshiftKey j k)) else 0) := by
    intro k hk
    rw [List.mem_toFinset, List.mem_filter] at hk
    apply if_congr _ rfl rfl
    constructor
    · rintro ⟨h1, h2⟩
      refine ⟨h1, ?_⟩
      rw [List.mem_toFinset, List.mem_filter]
      exact ⟨h2, by rw [keyCS_unshiftKey]; exact hk.2⟩
    · rintro ⟨h1, h2⟩
      rw [List.mem_toFinset, List.mem_filter] at h2
      exact ⟨h1, h2.1⟩
  rw [Finset.sum_congr rfl hstep]
  have hcl : ∀ kk ∈ (ykeys.filter (keyCS cid sid)).toFinset,
      shiftKey j kk ∈ ((xKeys inp).filter (keyCS cid sid)).toFinset := by
    intro kk hkk
    rw [List.mem_toFinset] at hkk
    rw [List.mem_toFinset]
    exact hclose kk hkk
  rw [sum_unshiftKey (fun kk => b2n (σy kk)) j
    (((xKeys inp).filter (keyCS cid sid)).toFinset)
    ((ykeys.filter (keyCS cid sid)).toFinset) hcl]
  exact List.sum_toFinset _ (hynd.filter _)

/-- The coverage links turn the pair's occupancy count into the weighted
count of its block starts: each 2-block start covers two slots, each
3-block start three. -/
theorem bsum_x_eq_y_sums {inp : Input} {σ : Solution} (hlink : LinkCons inp σ)
    (cid sid : String) :
    bsum ((xKeys inp).filter (keyCS cid sid)) σ.x
      = bsum ((y1Keys inp).filter (keyCS cid sid)) σ.y1
        + 2 * bsum ((y2Keys inp).filter (keyCS cid sid)) σ.y2
        + 3 * bsum ((y3Keys inp).filter (keyCS cid sid)) σ.y3 := by
  have hXnd := (nodup_xKeys inp).filter (keyCS cid sid)
  have h0 : bsum ((xKeys inp).filter (keyCS cid sid)) σ.x
      = ∑ k ∈ ((xKeys inp).filter (keyCS cid sid)).toFinset, b2n (σ.x k) :=
    (List.sum_toFinset _ hXnd).symm
  rw [h0]
  have h1 : ∀ k ∈ ((xKeys inp).filter (keyCS cid sid)).toFinset,
      b2n (σ.x k) = coverSum inp σ k := by
    intro k hk
    rw [List.mem_toFinset, List.mem_filter] at hk
    exact link_b2n hlink k hk.1
  rw [Finset.sum_congr rfl h1]
  unfold coverSum
  rw [Finset.sum_add_distrib, Finset.sum_add_distrib, Finset.sum_add_distrib,
    Finset.sum_add_distrib, Finset.sum_add_distrib]
  have e1 : (∑ k ∈ ((xKeys inp).filter (keyCS cid sid)).toFinset,
      if k ∈ y1Keys inp then b2n (σ.y1 k) else 0)
      = bsum ((y1Keys inp).filter (keyCS cid sid)) σ.y1 := by
    have hb : ∀ k ∈ ((xKeys inp).filter (keyCS cid sid)).toFinset,
        (if k ∈ y1Keys inp then b2n (σ.y1 k) else 0)
        = (if 0 ≤ k.h ∧ unshiftKey 0 k ∈ y1Keys inp
            then b2n (σ.y1 (unshiftKey 0 k)) else 0) := by
      intro k hk
      rw [unshiftKey_zero]
      exact if_congr ⟨fun h => ⟨Nat.zero_le _, h⟩, And.right⟩ rfl rfl
    rw [Finset.sum_congr rfl hb]
    apply sum_cover_term σ.y1 0 (y1Keys inp) (nodup_y1Keys inp) cid sid
    intro kk hkk
    rw [List.mem_filter] at hkk
    rw [shiftKey_zero, List.mem_filter]
    exact ⟨xKeys_of_y1 hkk.1, hkk.2⟩
  have e2 : (∑ k ∈ ((xKeys inp).filter (keyCS cid sid)).toFinset,
      if k ∈ y2Keys inp then b2n (σ.y2 k) else 0)
      = bsum ((y2Keys inp).filter (keyCS cid sid)) σ.y2 := by
    have hb : ∀ k ∈ ((xKeys inp).filter (keyCS cid sid)).toFinset,
        (if k ∈ y2Keys inp then b2n (σ.y2 k) else 0)
        = (if 0 ≤ k.h ∧ unshiftKey 0 k ∈ y2Keys inp
            then b2n (σ.y2 (unshiftKey 0 k)) else 0) := by
      intro k hk
      rw [unshiftKey_zero]
      exact if_congr ⟨fun h => ⟨Nat.zero_le _, h⟩, And.right⟩ rfl rfl
    rw [Finset.sum_congr rfl hb]
    apply sum_cover_term σ.y2 0 (y2Keys inp) (nodup_y2Keys inp) cid sid
    intro kk hkk
    rw [List.mem_filter] at hkk
    rw [shiftKey_zero, List.mem_filter]
    exact ⟨(xKeys_of_y2 hkk.1).1, hkk.2⟩
  have e3 : (∑ k ∈ ((xKeys inp).filter (keyCS cid sid)).toFinset,
      if 1 ≤ k.h ∧ unshiftKey 1 k ∈ y2Keys inp
        then b2n (σ.y2 (unshiftKey 1 k)) else 0)
      = bsum ((y2Keys inp).filter (keyCS cid sid)) σ.y2 := by
    apply sum_cover_term σ.y2 1 (y2Keys inp) (nodup_y2Keys inp) cid sid
    intro kk hkk
    rw [List.mem_filter] at hkk
    rw [List.mem_filter]
    refine ⟨(xKeys_of_y2 hkk.1).2, ?_⟩
    rw [keyCS_shiftKey]
    exact hkk.2
  have e4 : (∑ k ∈ ((xKeys inp).filter (keyCS cid sid)).toFinset,
      if k ∈ y3Keys inp then b2n (σ.y3 k) else 0)
      = bsum ((y3Keys inp).filter (keyCS cid sid)) σ.y3 := by
    have hb : ∀ k ∈ ((xKeys inp).filter (keyCS cid sid)).toFinset,
        (if k ∈ y3Keys inp then b2n (σ.y3 k) else 0)
        = (if 0 ≤ k.h ∧ unshiftKey 0 k ∈ y3Keys inp
            then b2n (σ.y3 (unshiftKey 0 k)) else 0) := by
      intro k hk
      rw [unshiftKey_zero]
      exact if_congr ⟨fun h => ⟨Nat.zero_le _, h⟩, And.right⟩ rfl rfl
    rw [Finset.sum_congr rfl hb]
    apply sum_cover_term σ.y3 0 (y3Keys inp) (nodup_y3Keys inp) cid sid
    intro kk hkk
    rw [List.mem_filter] at hkk
    rw [shiftKey_zero, List.mem_filter]
    exact ⟨(xKeys_of_y3 hkk.1).1, hkk.2⟩
  have e5 : (∑ k ∈ ((xKeys inp).filter (keyCS cid sid)).toFinset,
      if 1 ≤ k.h ∧ unshiftKey 1 k ∈ y3Keys inp
        then b2n (σ.y3 (unshiftKey 1 k)) else 0)
      = bsum ((y3Keys inp).filter (keyCS cid sid)) σ.y3 := by
    apply sum_cover_term σ.y3 1 (y3Keys inp) (nodup_y3Keys inp) cid sid
    intro kk hkk
    rw [List.mem_filter] at hkk
    rw [List.mem_filter]
    refine ⟨(xKeys_of_y3 hkk.1).2.1, ?_⟩
    rw [keyCS_shiftKey]
    exact hkk.2
  have e6 : (∑ k ∈ ((xKeys inp).filter (keyCS cid sid)).toFinset,
      if 2 ≤ k.h ∧ unshiftKey 2 k ∈ y3Keys inp
        then b2n (σ.y3 (unshiftKey 2 k)) else 0)
      = bsum ((y3Keys inp).filter (keyCS cid sid)) σ.y3 := by
    apply sum_cover_term σ.y3 2 (y3Keys inp) (nodup_y3Keys inp) cid sid
    intro kk hkk
    rw [List.mem_filter] at hkk
    rw [List.mem_filter]
    refine ⟨(xKeys_of_y3 hkk.1).2.2, ?_⟩
    rw [keyCS_shiftKey]
    exact hkk.2
  rw [e1, e2, e3, e4, e5, e6]
  ring

/-- With distinct subject ids, a pair with empty eligibility contributes no
occupancy keys at all. -/
theorem no_keys_of_empty_eligible {inp : Input}
    (HS : (inp.subjects.map Subject.id).Nodup) {s : Subject} (hs : s ∈ inp.subjects)
    {cid : String} {c : Classroom} (hc : classroom_by_id inp cid = some c)
    (he : eligible_teachers inp c s = []) :
    ∀ k ∈ xKeys inp, ¬(k.cid = cid ∧ k.sid = s.id) := by
  rintro k hk ⟨hkc, hks⟩
  obtain ⟨s2, hs2, hcid2, hsid2, c2, hc2, he2, -, -, -⟩ := mem_xKeys.mp hk
  have hseq : s2 = s := subject_id_inj HS hs2 hs (by rw [← hsid2, hks])
  subst hseq
  rw [hkc, hc] at hc2
  injection hc2 with hc2
  subst hc2
  exact he2 he

/-- An eligible teacher who is never available: no block-start variables
exist, so the weekly-hours constraint of line 136 is skipped. -/
def inputD : Input :=
  ⟨[⟨"t1", ["Mat"], [[false]], true, false⟩], [classroomA], [subjectMat], [],
   hoursA, none, {}, false⟩

/-- C1 counterexample: in `inputD` the pair (c1, s1) has `weeklyHours 1 > 0`
and the non-empty eligible set `["t1"]`, yet the all-false valuation
satisfies every posted constraint (no y-variable exists, so the
weekly-hours constraint is skipped), and the FEASIBLE result carries 0
cells of the subject instead of 1: the claim fails as stated. -/
theorem c1_weekly_hours_counterexample :
    Satisfies inputD solZero
    ∧ eligible_teachers inputD classroomA subjectMat = ["t1"]
    ∧ subjectMat.weeklyHours = 1
    ∧ countSubj ((solve_cp_sat inputD CpStatus.FEASIBLE solZero).schedule "c1") "s1" = 0 :=
  ⟨satisfies_of_all (by decide), by decide, rfl, by decide⟩

/-- C1 amended: for a pair (c, s) of the input with a non-empty eligible
set, **provided at least one block-start variable exists for the pair**
(the guard of line 136) and `weeklyHours > 0`, every OPTIMAL or FEASIBLE
solution yields exactly `weeklyHours` cells of the subject in the
classroom's grid; for a pair with empty eligibility the count is 0 and
the skip note is emitted.  (Subject ids are assumed distinct, as in the
data model.) -/
theorem c1_weekly_hours_amended (inp : Input) (σ : Solution) (status : CpStatus)
    (hsat : Satisfies inp σ)
    (HS : (inp.subjects.map Subject.id).Nodup)
    (hst : status = CpStatus.OPTIMAL ∨ status = CpStatus.FEASIBLE)
    (s : Subject) (hs : s ∈ inp.subjects)
    (cid : String) (hcid : cid ∈ s.assignedClassIds)
    (c : Classroom) (hc : classroom_by_id inp cid = some c) :
    (eligible_teachers inp c s ≠ [] →
      ((y1Keys inp).filter (keyCS cid s.id) ≠ []
        ∨ (y2Keys inp).filter (keyCS cid s.id) ≠ []
        ∨ (y3Keys inp).filter (keyCS cid s.id) ≠ []) →
      0 < s.weeklyHours →
      (countSubj ((solve_cp_sat inp status σ).schedule cid) s.id : Int) = s.weeklyHours)
    ∧ (eligible_teachers inp c s = [] →
      countSubj ((solve_cp_sat inp status σ).schedule cid) s.id = 0
        ∧ skipNote s cid ∈ (solve_cp_sat inp status σ).notes) := by
  have hsch : (solve_cp_sat inp status σ).schedule = (extract inp σ.x).1 := by
    unfold solve_cp_sat
    rw [if_pos hst]
  have hcount : countSubj ((solve_cp_sat inp status σ).schedule cid) s.id
      = bsum ((xKeys inp).filter (keyCS cid s.id)) σ.x := by
    rw [hsch, (extract_spec (slot_unique hsat)).2 cid s.id, count_as_bsum]
  constructor
  · intro he hy hw
    have hweekly := hsat.weekly s hs cid hcid
    rw [hc] at hweekly
    have hB := hweekly he hw hy
    have hx := bsum_x_eq_y_sums hsat.link cid s.id
    rw [hcount, hx]
    have h1 := hB.1
    omega
  · intro he
    have hzero : (xKeys inp).filter (csXPred σ.x cid s.id) = [] := by
      rw [List.filter_eq_nil_iff]
      intro k hk hp
      unfold csXPred at hp
      rw [Bool.and_eq_true, Bool.and_eq_true] at hp
      exact no_keys_of_empty_eligible HS hs hc he k hk
        ⟨beq_iff_eq.mp hp.1.2, beq_iff_eq.mp hp.2⟩
    constructor
    · rw [hsch, (extract_spec (slot_unique hsat)).2 cid s.id, hzero]
      rfl
    · rw [notes_solve_cp_sat]
      apply List.mem_append.mpr
      left
      unfold skipNotes
      rw [List.mem_flatMap]
      refine ⟨s, hs, ?_⟩
      rw [List.mem_flatMap]
      refine ⟨cid, hcid, ?_⟩
      rw [skipBlock_eq_some hc, if_pos he]
      exact List.mem_singleton.mpr rfl

theorem c1_weekly_hours_amended_witness :
    (countSubj ((solve_cp_sat inputA CpStatus.FEASIBLE solA).schedule "c1") "s1" : Int) = 1
    ∧ countSubj ((solve_cp_sat inputA CpStatus.FEASIBLE solA).schedule "c1") "s2" = 0
    ∧ skipNote subjectFiz "c1" ∈ (solve_cp_sat inputA CpStatus.FEASIBLE solA).notes := by
  have h1 := c1_weekly_hours_amended inputA solA CpStatus.FEASIBLE satisfies_inputA
    (by decide) (Or.inr rfl) subjectMat (by decide) "c1" (by decide) classroomA (by decide)
  have h2 := c1_weekly_hours_amended inputA solA CpStatus.FEASIBLE satisfies_inputA
    (by decide) (Or.inr rfl) subjectFiz (by decide) "c1" (by decide) classroomA (by decide)
  refine ⟨?_, ?_, ?_⟩
  · exact h1.1 (by decide) (Or.inl (by decide)) (by decide)
  · exact (h2.2 (by decide)).1
  · exact (h2.2 (by decide)).2

end TimetableCpSat
